import Mathlib

set_option maxRecDepth 8000

/-!
Shallow embedding of the zweb repository's core modules (`dns.py`,
`zweb_socket_server.py`, `zweb_p2p.py`).

Python strings are modelled as `List Char`.  The character-class helpers
(`lower`, `upper`, `isalnum`, `isspace`) are modelled on the ASCII/Latin-1
range, which covers every string the repository manipulates.
-/

namespace Zweb

/-- Python `str.isspace` for the Latin-1 range: the whitespace characters
that `str.strip()` removes. -/
def pyIsSpace (c : Char) : Bool :=
  c == ' ' || c == '\t' || c == '\n' || c == '\r' || c == '\x0b' || c == '\x0c' ||
  c == '\x1c' || c == '\x1d' || c == '\x1e' || c == '\x1f' || c == '\x85' || c == '\xa0'

/-- Python `str.strip()` (no argument): trim whitespace from both ends. -/
def pyStrip (l : List Char) : List Char :=
  ((l.dropWhile pyIsSpace).reverse.dropWhile pyIsSpace).reverse

/-- Python `str.rstrip(c)` for a one-character strip set. -/
def pyRstripChar (c : Char) (l : List Char) : List Char :=
  (l.reverse.dropWhile (fun x => x == c)).reverse

/-- Python `str.strip(c)` for a one-character strip set. -/
def pyStripChar (c : Char) (l : List Char) : List Char :=
  ((l.dropWhile (fun x => x == c)).reverse.dropWhile (fun x => x == c)).reverse

/-- Prepend a character to the first part of a split result. -/
def consHead (c : Char) : List (List Char) → List (List Char)
  | [] => [[c]]
  | cur :: done => (c :: cur) :: done

/-- Python `str.split(sep)` for a one-character separator (keeps empty parts). -/
def pySplit (sep : Char) : List Char → List (List Char)
  | [] => [[]]
  | c :: rest =>
    if c == sep then [] :: pySplit sep rest else consHead c (pySplit sep rest)

/-- Python `sep.join(xs)` for a one-character separator. -/
def joinSep (sep : Char) : List (List Char) → List Char
  | [] => []
  | [x] => x
  | x :: y :: t => x ++ sep :: joinSep sep (y :: t)

/-- `startsWith s p`: does `s` start with `p`? (Python `str.startswith`.) -/
def startsWith : List Char → List Char → Bool
  | _, [] => true
  | [], _ :: _ => false
  | a :: s, b :: p => a == b && startsWith s p

/-- `endsWithL s p`: does `s` end with `p`? (Python `str.endswith`.) -/
def endsWithL (s p : List Char) : Bool :=
  startsWith s.reverse p.reverse

/-- Python `"://" in s` (substring containment, as used by `_parse_input`). -/
def hasScheme : List Char → Bool
  | [] => false
  | c :: rest => (c == ':' && startsWith rest ('/' :: '/' :: [])) || hasScheme rest

/-! ## CPython `urllib.parse` model

`dns._parse_input` relies on `urllib.parse.urlparse(candidate).hostname`
and `.path`.  The following definitions model the CPython `urlsplit`
algorithm (leading C0-control/space lstrip, removal of tab/CR/LF, scheme
split, netloc split at `/?#`, bracket sanity check, fragment/query split)
and the `hostname` property (text after the last `@`, up to `:` or inside
`[...]`, lower-cased, `None` when empty), restricted to the fields the
repository reads.  The NFKC netloc check only concerns non-ASCII input and
is outside the modelled character range. -/

/-- Characters CPython allows inside a URL scheme. -/
def schemeChar (c : Char) : Bool :=
  c.isAlpha || c.isDigit || c == '+' || c == '-' || c == '.'

/-- Index of the first `:` (Python `url.find(':')`, `none` for `-1`). -/
def colonIdx : List Char → Option Nat
  | [] => none
  | c :: rest => if c == ':' then some 0 else (colonIdx rest).map (· + 1)

/-- CPython scheme removal: at the first `:`, if everything before it is a
valid scheme starting with an ASCII letter, drop the scheme and the `:`. -/
def splitScheme (url : List Char) : List Char :=
  match colonIdx url with
  | none => url
  | some i =>
    if 0 < i ∧ (url.headD ' ').isAlpha ∧ (url.take i).all schemeChar = true then
      url.drop (i + 1)
    else url

/-- A character that does not end the netloc. -/
def netlocChar (c : Char) : Bool :=
  !(c == '/' || c == '?' || c == '#')

/-- Drop the fragment (after the first `#`) and then the query (after the
first `?`), keeping the path. -/
def dropFragQuery (url : List Char) : List Char :=
  (url.takeWhile (fun c => !(c == '#'))).takeWhile (fun c => !(c == '?'))

structure UrlSplitResult where
  netloc : List Char
  path : List Char
deriving DecidableEq

def errInvalidIpv6 : List Char := ("Invalid IPv6 URL").toList

/-- CPython `urlsplit`, reduced to the netloc and path fields. -/
def urlsplit (url : List Char) : Except (List Char) UrlSplitResult :=
  let u1 := (url.dropWhile (fun c => decide (c.toNat ≤ 32))).filter
      (fun c => !(c == '\t' || c == '\r' || c == '\n'))
  let u2 := splitScheme u1
  match u2 with
  | '/' :: '/' :: rest =>
    let netloc := rest.takeWhile netlocChar
    let rest2 := rest.dropWhile netlocChar
    if (netloc.contains '[' && !(netloc.contains ']')) ||
       (netloc.contains ']' && !(netloc.contains '[')) then
      .error errInvalidIpv6
    else
      .ok ⟨netloc, dropFragQuery rest2⟩
  | other => .ok ⟨[], dropFragQuery other⟩

/-- The part of the netloc after the last `@` (CPython `rpartition('@')`). -/
def afterLastAt (l : List Char) : List Char :=
  (l.reverse.takeWhile (fun c => !(c == '@'))).reverse

/-- Extract the host part of the hostinfo: bracketed IPv6 contents, or the
text before the first `:`. -/
def hostPart (hostinfo : List Char) : List Char :=
  if hostinfo.contains '[' then
    ((hostinfo.dropWhile (fun c => !(c == '['))).drop 1).takeWhile (fun c => !(c == ']'))
  else hostinfo.takeWhile (fun c => !(c == ':'))

/-- CPython `SplitResult.hostname`: lower-cased host, `None` when empty. -/
def pyHostname (netloc : List Char) : Option (List Char) :=
  let h := hostPart (afterLastAt netloc)
  if h.isEmpty then none else some (h.map Char.toLower)

/-! ## `dns.py` -/

def errHostnameRequired : List Char := ("a hostname or URL is required").toList
def errNoHostname : List Char := ("unable to determine hostname").toList
def errEmptySuffix : List Char := ("suffix must not be empty").toList
def errEmptyDomain : List Char := ("domain must not be empty").toList
def httpPrefix : List Char := ['h', 't', 't', 'p', ':', '/', '/']
def githubSuffix : List Char := (".github.io").toList
def zwbSuffix : List Char := ("zwb").toList

/-- `dns._parse_input`: strict parse of a hostname-or-URL string. -/
def parseInput (raw : List Char) : Except (List Char) (List Char × List (List Char)) :=
  let candidate := pyStrip raw
  if candidate.isEmpty then .error errHostnameRequired
  else
    let candidate2 := if hasScheme candidate then candidate else httpPrefix ++ candidate
    match urlsplit candidate2 with
    | .error e => .error e
    | .ok r =>
      match pyHostname r.netloc with
      | none => .error errNoHostname
      | some host =>
        .ok (pyRstripChar '.' host, (pySplit '/' r.path).filter (fun s => !s.isEmpty))

/-- `dns._split_hostname_and_path`: best-effort variant of `_parse_input`. -/
def splitHostnameAndPath (raw : List Char) : List Char × List (List Char) :=
  match parseInput raw with
  | .ok r => r
  | .error _ => (pyRstripChar '.' (pyStrip raw), [])

/-- The recursion inside `dns._sanitise_label`: keep alphanumerics
(lower-cased), collapse runs of other characters to a single dash. -/
def sanitiseCore : List Char → Bool → List Char
  | [], _ => []
  | c :: rest, prevDash =>
    let c2 := Char.toLower c
    if c2.isAlphanum then c2 :: sanitiseCore rest false
    else if prevDash then sanitiseCore rest true
    else '-' :: sanitiseCore rest true

/-- `dns._sanitise_label`. -/
def sanitiseLabel (label : List Char) : List Char :=
  pyStripChar '-' (sanitiseCore label false)

/-- `s[:-n]` in Python (drop the last `n` characters). -/
def dropLastN (n : Nat) (l : List Char) : List Char :=
  l.take (l.length - n)

/-- `dns._github_pages_alias`: the `.zwb` alias for GitHub Pages hosts, or
`none` when the rule does not apply; raises when `suffix` strips to empty. -/
def githubPagesAlias (hostname : List Char) (pathSegments : List (List Char))
    (suffix : List Char) : Except (List Char) (Option (List Char)) :=
  if !(endsWithL hostname githubSuffix) then .ok none
  else
    let base := pyStripChar '.' (dropLastN githubSuffix.length hostname)
    let labelSource := pathSegments.headD base
    let s := pyStripChar '.' suffix
    if s.isEmpty then .error errEmptySuffix
    else
      let candidate := sanitiseLabel labelSource
      if candidate.isEmpty then .ok none
      else .ok (some (candidate ++ '.' :: s))

/-- `dns._replace_suffix`: replace the final label of `domain` with
`suffix` (append for single-label domains). -/
def replaceSuffix (domain suffix : List Char) : Except (List Char) (List Char) :=
  let labels := (pySplit '.' domain).filter (fun l => !l.isEmpty)
  if labels.isEmpty then .error errEmptyDomain
  else
    let s := pyStripChar '.' suffix
    if s.isEmpty then .error errEmptySuffix
    else if labels.length = 1 then .ok (labels.headD [] ++ '.' :: s)
    else .ok (joinSep '.' (labels.dropLast ++ [s]))

/-- `dns.zone`. -/
def zone (domain : List Char) : Except (List Char) (List Char) :=
  let p := splitHostnameAndPath domain
  if p.1.isEmpty then .ok []
  else
    match githubPagesAlias p.1 p.2 zwbSuffix with
    | .error e => .error e
    | .ok (some a2) => .ok a2
    | .ok none =>
      let labels := (pySplit '.' p.1).filter (fun l => !l.isEmpty)
      if labels.isEmpty then .ok []
      else if labels.length < 2 then replaceSuffix (labels.headD []) zwbSuffix
      else replaceSuffix (joinSep '.' (labels.drop (labels.length - 2))) zwbSuffix

/-- `dns.node`. -/
def node (domain : List Char) : Except (List Char) (List Char) :=
  let p := splitHostnameAndPath domain
  if p.1.isEmpty then .ok []
  else
    match githubPagesAlias p.1 p.2 zwbSuffix with
    | .error e => .error e
    | .ok (some _) =>
      if !p.2.isEmpty then
        .ok (sanitiseLabel (pyStripChar '.' (dropLastN githubSuffix.length p.1)))
      else .ok []
    | .ok none =>
      let labels := (pySplit '.' p.1).filter (fun l => !l.isEmpty)
      if labels.length ≤ 2 then
        if labels.isEmpty then .ok [] else .ok (labels.headD [])
      else .ok (joinSep '.' (labels.take (labels.length - 2)))

/-- `dns.name`. -/
def name (domain suffix : List Char) : Except (List Char) (List Char) :=
  let p := splitHostnameAndPath domain
  if p.1.isEmpty then .error errEmptyDomain
  else
    match githubPagesAlias p.1 p.2 suffix with
    | .error e => .error e
    | .ok (some a2) => .ok a2
    | .ok none => replaceSuffix (pyRstripChar '.' p.1) suffix

structure DomainParts where
  hostname : List Char
  zone : List Char
  node : List Char
  name : List Char
deriving DecidableEq

/-- `dns._describe_uncached`; `dns.describe` only adds an `lru_cache`
around this pure function, so it computes the same value. -/
def describe (raw : List Char) : Except (List Char) DomainParts :=
  let p := splitHostnameAndPath raw
  if p.1.isEmpty then .error errHostnameRequired
  else
    match githubPagesAlias p.1 p.2 zwbSuffix with
    | .error e => .error e
    | .ok (some aliasValue) =>
      let owner := sanitiseLabel (pyStripChar '.' (dropLastN githubSuffix.length p.1))
      .ok ⟨p.1, aliasValue, if !p.2.isEmpty then owner else [], aliasValue⟩
    | .ok none =>
      match zone p.1, node p.1, name p.1 zwbSuffix with
      | .ok z, .ok n, .ok nm => .ok ⟨p.1, z, n, nm⟩
      | .error e, _, _ => .error e
      | _, .error e, _ => .error e
      | _, _, .error e => .error e

def defaultRequestText : List Char := ("(empty request)").toList
def defaultMessageText : List Char := ("Lookup failed").toList

def pageHead : List Char :=
  ("<html><head><title>DNS Lookup Error</title>" ++
   "<style>body\x7bfont-family:Arial,Helvetica,sans-serif;margin:2em;\x7d" ++
   "h1\x7bcolor:#b00;\x7dcode\x7bbackground:#f5f5f5;padding:0.2em 0.4em;\x7d" ++
   "</style></head><body>" ++
   "<h1>Domain lookup failed</h1>" ++
   "<p>The DNS helper was unable to resolve <code>").toList

def pageMid : List Char :=
  ("</code>.</p><p><strong>Reason:</strong> ").toList

def pageTail : List Char :=
  ("</p><p>Please verify the address and try again or choose a different server.</p>" ++
   "</body></html>").toList

/-- `dns.build_error_page`. -/
def buildErrorPage (message request : List Char) : List Char :=
  let safeRequest := if (pyStrip request).isEmpty then defaultRequestText else pyStrip request
  let safeMessage := if (pyStrip message).isEmpty then defaultMessageText else pyStrip message
  pageHead ++ safeRequest ++ pageMid ++ safeMessage ++ pageTail

/-! ## UTF-8 decoding

`zweb_socket_server.serve` decodes the received bytes strictly
(`bytes.decode("utf-8")`, failure → the short error response) while
`zweb_p2p._PeerRequestHandler.handle` decodes with `errors="ignore"`.
Bytes are modelled as `Nat`.  The strict decoder accepts exactly the
well-formed sequences CPython accepts (no overlongs, no surrogates, max
U+10FFFF); the ignore-mode decoder skips a byte on any decode failure,
which coincides with CPython on the inputs considered here (invalid
start bytes). -/

/-- Is `b` a UTF-8 continuation byte? -/
def contByte (b : Nat) : Bool :=
  0x80 ≤ b && b ≤ 0xBF

/-- The scalar value of a 2-byte sequence. -/
def scalar2 (b c1 : Nat) : Nat := (b - 0xC0) * 64 + (c1 - 0x80)

/-- The scalar value of a 3-byte sequence. -/
def scalar3 (b c1 c2 : Nat) : Nat :=
  (b - 0xE0) * 4096 + (c1 - 0x80) * 64 + (c2 - 0x80)

/-- The scalar value of a 4-byte sequence. -/
def scalar4 (b c1 c2 c3 : Nat) : Nat :=
  (b - 0xF0) * 262144 + (c1 - 0x80) * 4096 + (c2 - 0x80) * 64 + (c3 - 0x80)

/-- Valid first continuation byte after a given 3-byte leader (excludes
overlong forms and surrogates, as CPython does). -/
def cont3First (b c1 : Nat) : Bool :=
  if b = 0xE0 then 0xA0 ≤ c1 && c1 ≤ 0xBF
  else if b = 0xED then 0x80 ≤ c1 && c1 ≤ 0x9F
  else contByte c1

/-- Valid first continuation byte after a given 4-byte leader. -/
def cont4First (b c1 : Nat) : Bool :=
  if b = 0xF0 then 0x90 ≤ c1 && c1 ≤ 0xBF
  else if b = 0xF4 then 0x80 ≤ c1 && c1 ≤ 0x8F
  else contByte c1

/-- Decode one scalar whose first byte is `b` and remaining bytes are
`rest`: the character and the bytes left over, or `none` on an ill-formed
sequence. -/
def utf8Step (b : Nat) (rest : List Nat) : Option (Char × List Nat) :=
  if b ≤ 0x7F then some (Char.ofNat b, rest)
  else if 0xC2 ≤ b && b ≤ 0xDF then
    match rest with
    | c1 :: r => if contByte c1 then some (Char.ofNat (scalar2 b c1), r) else none
    | [] => none
  else if 0xE0 ≤ b && b ≤ 0xEF then
    match rest with
    | c1 :: c2 :: r =>
      if cont3First b c1 && contByte c2 then some (Char.ofNat (scalar3 b c1 c2), r)
      else none
    | _ => none
  else if 0xF0 ≤ b && b ≤ 0xF4 then
    match rest with
    | c1 :: c2 :: c3 :: r =>
      if cont4First b c1 && contByte c2 && contByte c3 then
        some (Char.ofNat (scalar4 b c1 c2 c3), r)
      else none
    | _ => none
  else none

/-- Fuel-based strict decoding; fuel at least the input length suffices,
since every step consumes at least one byte. -/
def decodeStrictFuel : Nat → List Nat → Option (List Char)
  | _, [] => some []
  | 0, _ :: _ => none
  | n + 1, b :: rest =>
    match utf8Step b rest with
    | none => none
    | some (c, r) => (decodeStrictFuel n r).map (c :: ·)

/-- Strict UTF-8 decoding (`bytes.decode("utf-8")`): `none` on any
ill-formed input. -/
def decodeUtf8? (l : List Nat) : Option (List Char) :=
  decodeStrictFuel l.length l

/-- Fuel-based recursion for `decodeUtf8Ignore`: on a decode failure skip
one byte and continue. -/
def decodeIgnoreFuel : Nat → List Nat → List Char
  | _, [] => []
  | 0, _ :: _ => []
  | n + 1, b :: rest =>
    match utf8Step b rest with
    | none => decodeIgnoreFuel n rest
    | some (c, r) => c :: decodeIgnoreFuel n r

/-- UTF-8 decoding with `errors="ignore"`. -/
def decodeUtf8Ignore (l : List Nat) : List Char :=
  decodeIgnoreFuel l.length l

/-! ## `zweb_p2p.py` data model (needed below by both servers) -/

/-- `zweb_p2p.CachedSite` (paths modelled as their string form; the Python
field `alias` is spelled `alias_` because `alias` is a Lean keyword). -/
structure CachedSite where
  alias_ : List Char
  source : List Char
  hostname : List Char
  cache_path : List Char
  data_path : List Char
deriving DecidableEq

/-! ## `zweb_socket_server.py` -/

/-- `zweb_socket_server._ServerEntry`. -/
structure ServerEntry where
  name : List Char
  address : List Char
  description : List Char
deriving DecidableEq

/-- A JSON value as produced by the two servers: a string, the `servers`
array of the resolution server, or the `sites` array of the peer server. -/
inductive JVal where
  | str : List Char → JVal
  | servers : List ServerEntry → JVal
  | sites : List CachedSite → JVal
deriving DecidableEq

/-- A JSON object, as an ordered key/value list. -/
abbrev JObj := List (List Char × JVal)

/-- Look up a key in a JSON object. -/
def lookupKey (o : JObj) (k : List Char) : Option JVal :=
  match o with
  | [] => none
  | (k2, v) :: rest => if k2 = k then some v else lookupKey rest k

def kStatus : List Char := ("status").toList
def kMessage : List Char := ("message").toList
def kDomainServer : List Char := ("domain_server").toList
def kErrorPage : List Char := ("error_page").toList
def kHostname : List Char := ("hostname").toList
def kZone : List Char := ("zone").toList
def kNode : List Char := ("node").toList
def kName : List Char := ("name").toList
def kServers : List Char := ("servers").toList
def kPublicIp : List Char := ("public_ip").toList
def kSites : List Char := ("sites").toList
def vOk : List Char := ("ok").toList
def vError : List Char := ("error").toList
def vPong : List Char := ("pong").toList
def pingWord : List Char := ("PING").toList
def serversWord : List Char := ("SERVERS").toList
def errNoDomain : List Char := ("no domain provided").toList
def errNotUtf8 : List Char := ("request was not valid UTF-8").toList

/-- `zweb_socket_server.HOST:PORT`, the advertised local-helper address. -/
def localHelperAddress : List Char := ("127.0.0.1:65432").toList

def peerDefaultName : List Char := ("Peer").toList

/-- One operator-supplied `extra_servers` dict (fields may be absent). -/
structure ExtraServer where
  name : Option (List Char)
  address : Option (List Char)
  description : Option (List Char)
deriving DecidableEq

/-- The server directory built by `_RequestProcessor.__init__`. -/
def mkServers (domainServer : List Char) (extra : List ExtraServer) : List ServerEntry :=
  [⟨("Domain server").toList, domainServer, ("Primary DNS authority").toList⟩,
   ⟨("Local helper").toList, localHelperAddress, ("Bundled lookup helper").toList⟩] ++
  extra.filterMap (fun e =>
    let nm := match e.name with
      | some n => if n.isEmpty then peerDefaultName else n
      | none => peerDefaultName
    let addr := (e.address).getD []
    if addr.isEmpty then none else some ⟨nm, addr, (e.description).getD []⟩)

/-- `zweb_socket_server._RequestProcessor._error_payload`. -/
def errorPayload (domainServer message request : List Char) : JObj :=
  [(kStatus, .str vError), (kMessage, .str message),
   (kDomainServer, .str domainServer),
   (kErrorPage, .str (buildErrorPage message request))]

/-- `zweb_socket_server._RequestProcessor.handle`. -/
def processorHandle (domainServer : List Char) (servers : List ServerEntry)
    (raw : List Char) : JObj :=
  let request := pyStrip raw
  if request.isEmpty then errorPayload domainServer errNoDomain request
  else
    let command := request.map Char.toUpper
    if command = pingWord then
      [(kStatus, .str vOk), (kMessage, .str vPong), (kDomainServer, .str domainServer)]
    else if command = serversWord then
      [(kStatus, .str vOk), (kDomainServer, .str domainServer), (kServers, .servers servers)]
    else
      match describe request with
      | .error e => errorPayload domainServer e request
      | .ok parts =>
        [(kStatus, .str vOk), (kHostname, .str parts.hostname), (kZone, .str parts.zone),
         (kNode, .str parts.node), (kName, .str parts.name), (kDomainServer, .str domainServer)]

/-- The response `zweb_socket_server.serve` sends for one connection whose
received bytes are `data`: strict UTF-8 decode, then
`_RequestProcessor.handle`; on `UnicodeDecodeError` a two-key error
object. -/
def serveResponse (domainServer : List Char) (extra : List ExtraServer)
    (data : List Nat) : JObj :=
  match decodeUtf8? data with
  | none => [(kStatus, .str vError), (kMessage, .str errNotUtf8)]
  | some request => processorHandle domainServer (mkServers domainServer extra) request

/-! ## `zweb_p2p.P2PManager`

The manager's observable state: the in-memory `cached_sites` list, the
parsed contents of the persisted `data/sites.json` file (`none` for a
missing or corrupt file — both load as an empty directory), and the names
of the entries directly under the cache and data roots.  Filesystem and
network failures are supplied as oracle arguments (`dl`, `wOk`, …): `none`
or `false` means the corresponding Python call raised `URLError`/`OSError`.
`_write_metadata` swallows its own `OSError`, modelled as leaving the file
unchanged. -/

/-- One record of the persisted `sites.json` array; a field is `none` when
the key is absent from the JSON object. -/
structure JsonEntry where
  alias_ : Option (List Char)
  source : Option (List Char)
  hostname : Option (List Char)
  cache_path : Option (List Char)
  data_path : Option (List Char)
deriving DecidableEq

/-- `CachedSite.to_dict` (all keys present). -/
def toEntry (s : CachedSite) : JsonEntry :=
  ⟨some s.alias_, some s.source, some s.hostname, some s.cache_path, some s.data_path⟩

structure PState where
  cacheDir : List Char
  dataDir : List Char
  cached_sites : List CachedSite
  metaFile : Option (List JsonEntry)
  cacheEntries : List (List Char)
  dataEntries : List (List Char)
  serverRunning : Bool
  publicIp : List Char
deriving DecidableEq

/-- A fresh `P2PManager()` after `__post_init__` (directories created, no
`sites.json` yet, so `_load_metadata` yields an empty directory). -/
def initState : PState :=
  ⟨("cache").toList, ("data").toList, [], none, [], [], false, ("1.1.1.1").toList⟩

/-- `alias.replace("/", "-") or "unknown"`. -/
def safeAlias (a : List Char) : List Char :=
  let r := a.map (fun c => if c = '/' then '-' else c)
  if r.isEmpty then ("unknown").toList else r

/-- `P2PManager._cache_path_for` as a string path. -/
def cachePathFor (st : PState) (a : List Char) : List Char :=
  st.cacheDir ++ '/' :: safeAlias a

/-- `P2PManager._data_path_for` as a string path. -/
def dataPathFor (st : PState) (a : List Char) : List Char :=
  st.dataDir ++ '/' :: safeAlias a

/-- `_ensure_directory` under a root: record the entry name if new. -/
def ensureEntry (entries : List (List Char)) (name2 : List Char) : List (List Char) :=
  if name2 ∈ entries then entries else entries ++ [name2]

/-- `P2PManager._write_metadata`; `wOk = false` models the swallowed
`OSError` (file left as it was). -/
def writeMetadata (st : PState) (wOk : Bool) : PState :=
  if wOk then { st with metaFile := some (st.cached_sites.map toEntry) } else st

/-- The truthiness test `all([alias, source, hostname, cache_path,
data_path])` applies to one field. -/
def truthy : Option (List Char) → Bool
  | none => false
  | some s => !s.isEmpty

/-- One iteration of the `_load_metadata` entry loop. -/
def entryToSite (e : JsonEntry) : Option CachedSite :=
  if truthy e.alias_ && truthy e.source && truthy e.hostname &&
     truthy e.cache_path && truthy e.data_path then
    some ⟨(e.alias_).getD [], (e.source).getD [], (e.hostname).getD [],
          (e.cache_path).getD [], (e.data_path).getD []⟩
  else none

/-- `P2PManager._load_metadata`. -/
def loadMetadata (st : PState) : PState :=
  match st.metaFile with
  | none => { st with cached_sites := [] }
  | some entries => { st with cached_sites := entries.filterMap entryToSite }

/-- `P2PManager._register_site`. -/
def registerSite (st : PState) (site : CachedSite) (mOk : Bool) : PState :=
  writeMetadata
    { st with cached_sites :=
        (st.cached_sites.filter (fun s => !(s.alias_ = site.alias_ : Bool))) ++ [site] }
    mOk

/-- `P2PManager.install_site`.  `dl` is the body returned by `urlopen`
(`none`: `URLError`); `w1Ok`/`w2Ok` are the two `write_bytes` calls
(`false`: `OSError`); `mOk` is the metadata rewrite. -/
def installSite (st : PState) (source alias2 hostname : List Char)
    (dl : Option (List Nat)) (w1Ok w2Ok mOk : Bool) :
    Except (List Char) CachedSite × PState :=
  let nsrc0 := pyStrip source
  let nsrc := if hasScheme nsrc0 then nsrc0 else httpPrefix ++ nsrc0
  let cp := cachePathFor st alias2
  let dp := dataPathFor st alias2
  let st1 := { st with cacheEntries := ensureEntry st.cacheEntries (safeAlias alias2),
                       dataEntries := ensureEntry st.dataEntries (safeAlias alias2) }
  match dl with
  | none => (.error ("failed to download site").toList, st1)
  | some _content =>
    if w1Ok && w2Ok then
      let site : CachedSite := ⟨alias2, nsrc, hostname, cp, dp⟩
      (.ok site, registerSite st1 site mOk)
    else (.error ("unable to store site cache").toList, st1)

/-- `P2PManager.mark_site_cached`. -/
def markSiteCached (st : PState) (alias2 : List Char) (mOk : Bool) : PState :=
  let cp := cachePathFor st alias2
  let dp := dataPathFor st alias2
  let st1 := { st with cacheEntries := ensureEntry st.cacheEntries (safeAlias alias2),
                       dataEntries := ensureEntry st.dataEntries (safeAlias alias2) }
  if alias2 ∈ st1.cached_sites.map (fun s => s.alias_) then st1
  else
    writeMetadata
      { st1 with cached_sites := st1.cached_sites ++ [⟨alias2, [], [], cp, dp⟩] } mOk

/-- `P2PManager.stop_server` (observable effect on the modelled state). -/
def stopServer (st : PState) : PState :=
  { st with serverRunning := false }

/-- One iteration of the `cleanup_on_exit` deletion loop: attempt to
delete entry `e`; a raised `OSError` (`delFails e = true`) is swallowed
and leaves the entry in place. -/
def deleteStep (delFails : List Char → Bool) (acc : PState) (e : List Char) : PState :=
  if delFails e then acc
  else { acc with cacheEntries := acc.cacheEntries.filter (fun x => !(x = e : Bool)) }

/-- `P2PManager.cleanup_on_exit`: stop the server, then try to delete each
entry under the cache root (`glob("*")` snapshot), swallowing per-entry
`OSError`. -/
def cleanupOnExit (st : PState) (delFails : List Char → Bool) : PState :=
  st.cacheEntries.foldl (deleteStep delFails) (stopServer st)

/-- `zweb_p2p._PeerRequestHandler.handle`: the response for one received
payload `raw`. -/
def peerHandle (st : PState) (raw : List Nat) : JObj :=
  let message := (pyStrip (decodeUtf8Ignore raw)).map Char.toUpper
  if message = pingWord then
    [(kStatus, .str vOk), (kMessage, .str vPong)]
  else
    [(kStatus, .str vOk), (kPublicIp, .str st.publicIp), (kSites, .sites st.cached_sites)]

/-- The operations of claims C7/C10: load, install, mark, with their
failure oracles. -/
inductive POp where
  | install (source alias2 hostname : List Char) (dl : Option (List Nat)) (w1Ok w2Ok mOk : Bool)
  | mark (alias2 : List Char) (mOk : Bool)
  | load
deriving DecidableEq

def applyOp (st : PState) : POp → PState
  | .install source alias2 hostname dl w1Ok w2Ok mOk =>
    (installSite st source alias2 hostname dl w1Ok w2Ok mOk).2
  | .mark alias2 mOk => markSiteCached st alias2 mOk
  | .load => loadMetadata st

def runOps (ops : List POp) : PState :=
  ops.foldl applyOp initState

/-! ## Spec-side vocabulary used to state the claims -/

/-- A character that may occur in a hostname label: lower-case ASCII
letter, digit, or hyphen (hostnames are compared after `urlparse` has
lower-cased them). -/
def isHostChar (c : Char) : Bool :=
  (decide (97 ≤ c.toNat) && decide (c.toNat ≤ 122)) ||
  (decide (48 ≤ c.toNat) && decide (c.toNat ≤ 57)) ||
  c == '-'

/-- A well-formed hostname: every dot-separated label is non-empty and
made of hostname characters (so no leading/trailing/double dots). -/
def goodHostname (h : List Char) : Bool :=
  (pySplit '.' h).all (fun l => !l.isEmpty && l.all isHostChar)

/-- `labels[-2]`: the second-to-last element (claims C5's
"second-to-last label"). -/
def secondToLast (xs : List (List Char)) : List Char :=
  (xs.drop (xs.length - 2)).headD []

/-- The aliases currently listed by the persisted directory file. -/
def diskAliases (st : PState) : List (List Char) :=
  match st.metaFile with
  | none => []
  | some entries => entries.filterMap (fun e => e.alias_)

/-- No operation in the trace installs alias `a`. -/
def noInstallOf (a : List Char) (ops : List POp) : Bool :=
  ops.all fun op =>
    match op with
    | .install _ al _ _ _ _ _ => !(al = a : Bool)
    | _ => true

/-- Some operation in the trace marks alias `a`. -/
def marksOf (a : List Char) (ops : List POp) : Bool :=
  ops.any fun op =>
    match op with
    | .mark al _ => (al = a : Bool)
    | _ => false

/-- A concrete manager state with one persisted alias and one cache
entry, used to exercise `cleanup_on_exit`. -/
def c9WitnessState : PState :=
  { initState with
      metaFile := some [⟨some (("a1").toList), some (("s").toList), some (("h").toList),
                         some (("cache/a1").toList), some (("data/a1").toList)⟩],
      cacheEntries := [("a1").toList] }

/-- Memory-level and disk-level alias uniqueness. -/
def aliasInv (st : PState) : Prop :=
  (st.cached_sites.map CachedSite.alias_).Nodup ∧
  ∀ es, st.metaFile = some es → (es.map JsonEntry.alias_).Nodup

/-- "Alias `a` was never successfully installed": every record for `a`,
in memory or on disk, is a `mark_site_cached` placeholder with an empty
`source`. -/
def noRealAlias (a : List Char) (st : PState) : Prop :=
  (∀ s ∈ st.cached_sites, s.alias_ = a → s.source = []) ∧
  (∀ es, st.metaFile = some es → ∀ e ∈ es, e.alias_ = some a → e.source = some [])

/-! # Theorems -/

/-! ## Helper lemmas (shared) -/

lemma dropWhile_all_false {p : Char → Bool} {l : List Char}
    (h : ∀ c ∈ l, p c = false) : l.dropWhile p = l := by
  cases l with
  | nil => rfl
  | cons a t => simp [List.dropWhile_cons, h a (List.mem_cons_self a t)]

lemma contains_false {l : List Char} {a : Char} (h : a ∉ l) : l.contains a = false := by
  simpa using h

lemma pyStrip_eq_self {l : List Char} (h : ∀ c ∈ l, pyIsSpace c = false) :
    pyStrip l = l := by
  rw [pyStrip, dropWhile_all_false h, dropWhile_all_false (by simpa using h),
    List.reverse_reverse]

lemma dropWhile_idem (p : Char → Bool) (l : List Char) :
    (l.dropWhile p).dropWhile p = l.dropWhile p := by
  induction l with
  | nil => rfl
  | cons a t ih =>
    by_cases hp : p a = true
    · simp [List.dropWhile_cons, hp, ih]
    · simp [List.dropWhile_cons, hp]

lemma head_false_of_dropWhile {p : Char → Bool} {l : List Char} {a : Char} {t : List Char}
    (h : l.dropWhile p = a :: t) : p a = false := by
  induction l with
  | nil => simp at h
  | cons b l2 ih =>
    rw [List.dropWhile_cons] at h
    by_cases hp : p b = true
    · rw [if_pos hp] at h; exact ih h
    · rw [if_neg hp] at h
      cases h
      simpa using hp

lemma pyStrip_idem (l : List Char) : pyStrip (pyStrip l) = pyStrip l := by
  have hA : pyStrip l = ((l.dropWhile pyIsSpace).reverse.dropWhile pyIsSpace).reverse := rfl
  set A := l.dropWhile pyIsSpace with hAdef
  set B := A.reverse.dropWhile pyIsSpace with hBdef
  have hpre : ∃ C, A = B.reverse ++ C := by
    refine ⟨(A.reverse.takeWhile pyIsSpace).reverse, ?_⟩
    have := List.takeWhile_append_dropWhile pyIsSpace A.reverse
    calc A = A.reverse.reverse := (List.reverse_reverse A).symm
    _ = (A.reverse.takeWhile pyIsSpace ++ B).reverse := by rw [this]
    _ = B.reverse ++ (A.reverse.takeWhile pyIsSpace).reverse := by rw [List.reverse_append]
  have hstep1 : B.reverse.dropWhile pyIsSpace = B.reverse := by
    cases hBr : B.reverse with
    | nil => rfl
    | cons a t =>
      obtain ⟨C, hC⟩ := hpre
      rw [hBr] at hC
      have ha : pyIsSpace a = false := by
        apply @head_false_of_dropWhile pyIsSpace l a (t ++ C)
        rw [← hAdef, hC]; rfl
      simp [List.dropWhile_cons, ha]
  rw [hA, pyStrip, hstep1, List.reverse_reverse, hBdef, dropWhile_idem]

lemma pyRstripChar_idem (c : Char) (l : List Char) :
    pyRstripChar c (pyRstripChar c l) = pyRstripChar c l := by
  rw [pyRstripChar, pyRstripChar, List.reverse_reverse, dropWhile_idem]

lemma consHead_ne_nil (c : Char) (xs : List (List Char)) : consHead c xs ≠ [] := by
  cases xs <;> simp [consHead]

lemma pySplit_ne_nil (sep : Char) (l : List Char) : pySplit sep l ≠ [] := by
  cases l with
  | nil => simp [pySplit]
  | cons a t =>
    rw [pySplit]
    by_cases h : a == sep
    · simp [h]
    · simpa [h] using consHead_ne_nil a (pySplit sep t)

lemma joinSep_consHead (sep c : Char) (xs : List (List Char)) (hxs : xs ≠ []) :
    joinSep sep (consHead c xs) = c :: joinSep sep xs := by
  cases xs with
  | nil => exact absurd rfl hxs
  | cons cur done => cases done <;> simp [consHead, joinSep]

lemma joinSep_pySplit (sep : Char) (l : List Char) :
    joinSep sep (pySplit sep l) = l := by
  induction l with
  | nil => rfl
  | cons a t ih =>
    rw [pySplit]
    by_cases ha : a == sep
    · rw [if_pos ha]
      cases hp : pySplit sep t with
      | nil => exact absurd hp (pySplit_ne_nil sep t)
      | cons cur done =>
        rw [hp] at ih
        have haeq : a = sep := by simpa using ha
        simpa [joinSep, haeq] using ih
    · rw [if_neg ha, joinSep_consHead sep a _ (pySplit_ne_nil sep t), ih]

lemma mem_consHead {x : Char} {xs : List (List Char)} {p : List Char}
    (hp : p ∈ consHead x xs) : (p ∈ xs ∧ xs ≠ []) ∨ ∃ q, p = x :: q ∧ (q = [] ∨ q ∈ xs) := by
  cases xs with
  | nil =>
    simp only [consHead, List.mem_singleton] at hp
    exact Or.inr ⟨[], hp, Or.inl rfl⟩
  | cons cur done =>
    simp only [consHead, List.mem_cons] at hp
    rcases hp with rfl | hpd
    · exact Or.inr ⟨cur, rfl, Or.inr (List.mem_cons_self _ _)⟩
    · exact Or.inl ⟨List.mem_cons_of_mem _ hpd, by simp⟩

lemma mem_pySplit {sep c : Char} {l : List Char} (h : c ∈ l) :
    c = sep ∨ ∃ p ∈ pySplit sep l, c ∈ p := by
  induction l with
  | nil => simp at h
  | cons a t ih =>
    rw [pySplit]
    by_cases ha : a == sep
    · rw [if_pos ha]
      rcases List.mem_cons.mp h with rfl | hmem
      · exact Or.inl (by simpa using ha)
      · rcases ih hmem with hsep | ⟨p, hpmem, hcp⟩
        · exact Or.inl hsep
        · exact Or.inr ⟨p, List.mem_cons_of_mem _ hpmem, hcp⟩
    · rw [if_neg ha]
      cases hp : pySplit sep t with
      | nil => exact absurd hp (pySplit_ne_nil sep t)
      | cons cur done =>
        rcases List.mem_cons.mp h with rfl | hmem
        · exact Or.inr ⟨c :: cur, by simp [consHead], by simp⟩
        · rcases ih hmem with hsep | ⟨p, hpmem, hcp⟩
          · exact Or.inl hsep
          · rw [hp] at hpmem
            rcases List.mem_cons.mp hpmem with rfl | hpd
            · exact Or.inr ⟨a :: p, by simp [consHead], List.mem_cons_of_mem _ hcp⟩
            · exact Or.inr ⟨p, by simp [consHead, hpd], hcp⟩

lemma sep_not_mem_pySplit {sep : Char} {l : List Char} :
    ∀ p ∈ pySplit sep l, sep ∉ p := by
  induction l with
  | nil => intro p hp; simp [pySplit] at hp; simp [hp]
  | cons a t ih =>
    intro p hp
    rw [pySplit] at hp
    by_cases ha : a == sep
    · rw [if_pos ha] at hp
      rcases List.mem_cons.mp hp with rfl | hp2
      · simp
      · exact ih p hp2
    · rw [if_neg ha] at hp
      rcases mem_consHead hp with ⟨hpmem, -⟩ | ⟨q, rfl, hq⟩
      · exact ih p hpmem
      · intro hmem
        rcases List.mem_cons.mp hmem with rfl | h2
        · simp at ha
        · rcases hq with rfl | hqmem
          · simp at h2
          · exact ih q hqmem h2

lemma pySplit_sepFree {sep : Char} {l : List Char} (h : sep ∉ l) :
    pySplit sep l = [l] := by
  induction l with
  | nil => rfl
  | cons a t ih =>
    rw [pySplit, ih (fun hm => h (List.mem_cons_of_mem _ hm))]
    have ha : (a == sep) = false := by
      simp only [beq_eq_false_iff_ne, ne_eq]
      intro hq
      exact h (hq ▸ List.mem_cons_self a t)
    simp [ha, consHead]

lemma pySplit_append_sepFree {sep : Char} {x y : List Char} (h : sep ∉ x) :
    pySplit sep (x ++ sep :: y) = x :: pySplit sep y := by
  induction x with
  | nil =>
    rw [List.nil_append, pySplit]
    simp
  | cons a t ih =>
    have ht : sep ∉ t := fun hm => h (List.mem_cons_of_mem _ hm)
    rw [List.cons_append, pySplit, ih ht]
    have ha : (a == sep) = false := by
      simp only [beq_eq_false_iff_ne, ne_eq]
      intro hq
      exact h (hq ▸ List.mem_cons_self a t)
    simp [ha, consHead]

lemma pySplit_snoc_sep (sep : Char) (l : List Char) :
    pySplit sep (l ++ [sep]) = pySplit sep l ++ [[]] := by
  induction l with
  | nil => simp [pySplit]
  | cons a t ih =>
    rw [List.cons_append, pySplit, ih, pySplit]
    by_cases ha : a == sep
    · simp [ha]
    · rw [if_neg ha, if_neg ha]
      cases hp : pySplit sep t with
      | nil => exact absurd hp (pySplit_ne_nil sep t)
      | cons cur done => simp [consHead]

lemma joinSep_append {sep : Char} {xs ys : List (List Char)}
    (hxs : xs ≠ []) (hys : ys ≠ []) :
    joinSep sep (xs ++ ys) = joinSep sep xs ++ sep :: joinSep sep ys := by
  induction xs with
  | nil => exact absurd rfl hxs
  | cons x t ih =>
    cases t with
    | nil =>
      cases ys with
      | nil => exact absurd rfl hys
      | cons y yt => simp [joinSep]
    | cons x2 t2 =>
      have h2 : joinSep sep ((x :: x2 :: t2) ++ ys) =
          x ++ sep :: joinSep sep (x2 :: t2 ++ ys) := rfl
      have h3 : joinSep sep (x :: x2 :: t2) = x ++ sep :: joinSep sep (x2 :: t2) := rfl
      rw [h2, h3, ih (by simp)]
      simp [List.append_assoc]

lemma startsWith_append (p t : List Char) : startsWith (p ++ t) p = true := by
  induction p with
  | nil => cases t <;> rfl
  | cons a s ih => simpa [startsWith] using ih

lemma endsWithL_append (t p : List Char) : endsWithL (t ++ p) p = true := by
  rw [endsWithL, List.reverse_append]
  exact startsWith_append p.reverse t.reverse

lemma map_self {f : Char → Char} {l : List Char} (h : ∀ c ∈ l, f c = c) :
    l.map f = l := by
  induction l with
  | nil => rfl
  | cons a t ih => simp [h a (List.mem_cons_self a t), ih fun c hc => h c (List.mem_cons_of_mem _ hc)]

/-! ## Character-class facts for well-formed hostnames -/

lemma hostChar_toNat {c : Char} (h : isHostChar c = true) :
    (97 ≤ c.toNat ∧ c.toNat ≤ 122) ∨ (48 ≤ c.toNat ∧ c.toNat ≤ 57) ∨ c.toNat = 45 := by
  rw [isHostChar] at h
  simp only [Bool.or_eq_true, Bool.and_eq_true, decide_eq_true_eq, beq_iff_eq, or_assoc] at h
  rcases h with ⟨h1, h2⟩ | ⟨h1, h2⟩ | h3
  · exact Or.inl ⟨h1, h2⟩
  · exact Or.inr (Or.inl ⟨h1, h2⟩)
  · exact Or.inr (Or.inr (by subst h3; rfl))

lemma hostChar_beq_false {c d : Char} (h : isHostChar c = true)
    (hd : isHostChar d = false) : (c == d) = false := by
  cases hb : c == d
  · rfl
  · have : c = d := by simpa using hb
    subst this
    rw [h] at hd
    cases hd

lemma hostChar_ne {c d : Char} (h : isHostChar c = true)
    (hd : isHostChar d = false) : c ≠ d := by
  intro heq
  subst heq
  rw [h] at hd
  cases hd

lemma hostChar_not_space {c : Char} (h : isHostChar c = true) : pyIsSpace c = false := by
  cases hs : pyIsSpace c
  · rfl
  · exfalso
    rw [pyIsSpace] at hs
    simp only [Bool.or_eq_true, beq_iff_eq, or_assoc] at hs
    rcases hs with rfl | rfl | rfl | rfl | rfl | rfl | rfl | rfl | rfl | rfl | rfl | rfl <;>
      exact absurd h (by decide)

lemma hostChar_ge (h : isHostChar c = true) : ¬c.toNat ≤ 32 := by
  rcases hostChar_toNat h with h1 | h1 | h1 <;> omega

lemma hostChar_toLower {c : Char} (h : isHostChar c = true) : Char.toLower c = c := by
  have h2 := hostChar_toNat h
  unfold Char.toLower
  rw [if_neg (by omega)]

/-! ## Parsing a well-formed hostname -/

lemma goodHostname_ne_nil {h : List Char} (hg : goodHostname h = true) : h ≠ [] := by
  intro h0
  subst h0
  exact absurd hg (by decide)

lemma goodHostname_chars {h : List Char} (hg : goodHostname h = true) :
    ∀ c ∈ h, c = '.' ∨ isHostChar c = true := by
  intro c hc
  rcases @mem_pySplit '.' c h hc with h1 | ⟨p, hp, hcp⟩
  · exact Or.inl h1
  · right
    rw [goodHostname, List.all_eq_true] at hg
    have h2 := hg p hp
    simp only [Bool.and_eq_true, List.all_eq_true] at h2
    exact h2.2 c hcp

lemma goodHostname_pieces {h : List Char} (hg : goodHostname h = true) :
    ∀ p ∈ pySplit '.' h, p ≠ [] := by
  intro p hp
  rw [goodHostname, List.all_eq_true] at hg
  have h2 := hg p hp
  simp only [Bool.and_eq_true] at h2
  simpa [List.isEmpty_iff] using h2.1

lemma goodHostname_rstrip {h : List Char} (hg : goodHostname h = true) :
    pyRstripChar '.' h = h := by
  have hne := goodHostname_ne_nil hg
  have hlast : h.getLast hne ≠ '.' := by
    intro heq
    have hdecomp := List.dropLast_append_getLast hne
    rw [heq] at hdecomp
    have hsplit := pySplit_snoc_sep '.' h.dropLast
    rw [hdecomp] at hsplit
    exact goodHostname_pieces hg []
      (by rw [hsplit]; exact List.mem_append_right _ (by simp)) rfl
  have hrev : h.reverse = h.getLast hne :: h.dropLast.reverse := by
    conv_lhs => rw [← List.dropLast_append_getLast hne]
    simp
  rw [pyRstripChar, hrev, List.dropWhile_cons,
    if_neg (by simpa using hlast), ← hrev, List.reverse_reverse]

lemma hasScheme_eq_false {l : List Char} (h : ∀ c ∈ l, (c == ':') = false) :
    hasScheme l = false := by
  induction l with
  | nil => rfl
  | cons a t ih =>
    rw [hasScheme, h a (List.mem_cons_self a t)]
    simpa using ih fun c hc => h c (List.mem_cons_of_mem _ hc)

lemma splitScheme_http (host : List Char) :
    splitScheme ('h' :: 't' :: 't' :: 'p' :: ':' :: '/' :: '/' :: host) =
      '/' :: '/' :: host := rfl

lemma urlsplit_http (host : List Char)
    (hchars : ∀ c ∈ host, c = '.' ∨ isHostChar c = true) :
    urlsplit (httpPrefix ++ host) = .ok ⟨host, []⟩ := by
  have hu1 : (httpPrefix ++ host).dropWhile (fun c => decide (c.toNat ≤ 32)) =
      httpPrefix ++ host := by
    apply dropWhile_all_false
    intro c hc
    rcases List.mem_append.mp hc with hp | hh
    · simp only [httpPrefix, List.mem_cons, List.not_mem_nil, or_false] at hp
      rcases hp with rfl | rfl | rfl | rfl | rfl | rfl | rfl <;> rfl
    · rcases hchars c hh with rfl | hhost
      · rfl
      · simpa using hostChar_ge hhost
  have hfil : (httpPrefix ++ host).filter
      (fun c => !(c == '\t' || c == '\r' || c == '\n')) = httpPrefix ++ host := by
    apply List.filter_eq_self.mpr
    intro c hc
    rcases List.mem_append.mp hc with hp | hh
    · simp only [httpPrefix, List.mem_cons, List.not_mem_nil, or_false] at hp
      rcases hp with rfl | rfl | rfl | rfl | rfl | rfl | rfl <;> rfl
    · rcases hchars c hh with rfl | hhost
      · rfl
      · simp [hostChar_beq_false hhost (show isHostChar '\t' = false by decide),
          hostChar_beq_false hhost (show isHostChar '\r' = false by decide),
          hostChar_beq_false hhost (show isHostChar '\n' = false by decide)]
  have hnet : host.takeWhile netlocChar = host := by
    apply List.takeWhile_eq_self_iff.mpr
    intro c hc
    rcases hchars c hc with rfl | hhost
    · rfl
    · simp [netlocChar,
        hostChar_beq_false hhost (show isHostChar '/' = false by decide),
        hostChar_beq_false hhost (show isHostChar '?' = false by decide),
        hostChar_beq_false hhost (show isHostChar '#' = false by decide)]
  have hdrop : host.dropWhile netlocChar = [] := by
    apply List.dropWhile_eq_nil_iff.mpr
    intro c hc
    rcases hchars c hc with rfl | hhost
    · simp [netlocChar]
    · simp [netlocChar,
        hostChar_beq_false hhost (show isHostChar '/' = false by decide),
        hostChar_beq_false hhost (show isHostChar '?' = false by decide),
        hostChar_beq_false hhost (show isHostChar '#' = false by decide)]
  have hbr1 : host.contains '[' = false := by
    simp only [List.contains, List.elem_eq_mem, decide_eq_false_iff_not]
    intro hmem
    rcases hchars _ hmem with heq | hhost
    · cases heq
    · exact absurd hhost (by decide)
  have hbr2 : host.contains ']' = false := by
    simp only [List.contains, List.elem_eq_mem, decide_eq_false_iff_not]
    intro hmem
    rcases hchars _ hmem with heq | hhost
    · cases heq
    · exact absurd hhost (by decide)
  simp only [urlsplit, hu1, hfil]
  rw [show httpPrefix ++ host = 'h' :: 't' :: 't' :: 'p' :: ':' :: '/' :: '/' :: host from rfl,
    splitScheme_http]
  simp only [hnet, hdrop, hbr1, hbr2, Bool.and_false, Bool.false_and, Bool.and_true,
    Bool.not_false, Bool.or_self, Bool.false_or, Bool.or_false, Bool.and_self]
  rfl

lemma pyHostname_plain (host : List Char) (hne : host ≠ [])
    (hchars : ∀ c ∈ host, c = '.' ∨ isHostChar c = true) :
    pyHostname host = some host := by
  have hat : afterLastAt host = host := by
    rw [afterLastAt]
    rw [List.takeWhile_eq_self_iff.mpr, List.reverse_reverse]
    intro c hc
    rcases hchars c (List.mem_reverse.mp hc) with rfl | hhost
    · rfl
    · simp [hostChar_beq_false hhost (show isHostChar '@' = false by decide)]
  have hbr : host.contains '[' = false := by
    simp only [List.contains, List.elem_eq_mem, decide_eq_false_iff_not]
    intro hmem
    rcases hchars _ hmem with heq | hhost
    · cases heq
    · exact absurd hhost (by decide)
  have hcol : host.takeWhile (fun c => !(c == ':')) = host := by
    apply List.takeWhile_eq_self_iff.mpr
    intro c hc
    rcases hchars c hc with rfl | hhost
    · rfl
    · simp [hostChar_beq_false hhost (show isHostChar ':' = false by decide)]
  have hlower : host.map Char.toLower = host := by
    apply map_self
    intro c hc
    rcases hchars c hc with rfl | hhost
    · rfl
    · exact hostChar_toLower hhost
  have hie : host.isEmpty = false := by
    cases host
    · exact absurd rfl hne
    · rfl
  simp only [pyHostname, hostPart, hat, hbr, Bool.false_eq_true, if_false, hcol, hie, hlower]

/-- The parse bridge: a well-formed hostname round-trips through the
strict parser unchanged, with no path segments. -/
lemma parseInput_good (host : List Char) (hg : goodHostname host = true) :
    parseInput host = .ok (host, []) := by
  have hchars := goodHostname_chars hg
  have hne := goodHostname_ne_nil hg
  have hstrip : pyStrip host = host := by
    apply pyStrip_eq_self
    intro c hc
    rcases hchars c hc with rfl | hhost
    · rfl
    · exact hostChar_not_space hhost
  have hscheme : hasScheme host = false := by
    apply hasScheme_eq_false
    intro c hc
    rcases hchars c hc with rfl | hhost
    · rfl
    · exact hostChar_beq_false hhost (by decide)
  have hie : host.isEmpty = false := by
    cases host
    · exact absurd rfl hne
    · rfl
  simp only [parseInput, hstrip, hie, Bool.false_eq_true, if_false, hscheme,
    urlsplit_http host hchars, pyHostname_plain host hne hchars,
    goodHostname_rstrip hg]
  rfl

lemma deleteFold_frame (delFails : List Char → Bool) :
    ∀ (l : List (List Char)) (acc : PState),
      (l.foldl (deleteStep delFails) acc).dataEntries = acc.dataEntries ∧
      (l.foldl (deleteStep delFails) acc).metaFile = acc.metaFile ∧
      (l.foldl (deleteStep delFails) acc).cached_sites = acc.cached_sites := by
  intro l
  induction l with
  | nil => intro acc; simp
  | cons e t ih =>
    intro acc
    have h1 := ih (deleteStep delFails acc e)
    have h2 : (deleteStep delFails acc e).dataEntries = acc.dataEntries ∧
        (deleteStep delFails acc e).metaFile = acc.metaFile ∧
        (deleteStep delFails acc e).cached_sites = acc.cached_sites := by
      unfold deleteStep; split <;> simp
    simp only [List.foldl_cons]
    exact ⟨h1.1.trans h2.1, h1.2.1.trans h2.2.1, h1.2.2.trans h2.2.2⟩

lemma deleteFold_cacheEntries (delFails : List Char → Bool) :
    ∀ (l : List (List Char)) (acc : PState),
      (l.foldl (deleteStep delFails) acc).cacheEntries =
        acc.cacheEntries.filter (fun x => delFails x || !(decide (x ∈ l))) := by
  intro l
  induction l with
  | nil =>
    intro acc
    simp
  | cons e t ih =>
    intro acc
    simp only [List.foldl_cons]
    rw [ih (deleteStep delFails acc e)]
    unfold deleteStep
    by_cases he : delFails e = true
    · rw [if_pos he]
      apply List.filter_congr
      intro x _
      by_cases hx : x = e
      · subst hx; simp [he]
      · simp [List.mem_cons, hx]
    · rw [if_neg he]
      simp only []
      rw [List.filter_filter]
      apply List.filter_congr
      intro x _
      by_cases hx : x = e
      · subst hx
        simp [he]
      · simp [List.mem_cons, hx]

/-! ## Facets of the best-effort hostname -/

lemma parseInput_ok_shape {raw : List Char} {r : List Char × List (List Char)}
    (hp : parseInput raw = .ok r) : ∃ x, r.1 = pyRstripChar '.' x := by
  simp only [parseInput] at hp
  split at hp
  · cases hp
  · split at hp
    · cases hp
    · split at hp
      · cases hp
      · next host _ =>
        cases hp
        exact ⟨host, rfl⟩

lemma splitHost_fst_rstripped (raw : List Char) :
    ∃ x, (splitHostnameAndPath raw).1 = pyRstripChar '.' x := by
  rw [splitHostnameAndPath]
  cases hp : parseInput raw with
  | error e => exact ⟨pyStrip raw, rfl⟩
  | ok r => exact parseInput_ok_shape hp

lemma rstrip_eq_nil_of_all {sep : Char} {l : List Char} (h : ∀ c ∈ l, c = sep) :
    pyRstripChar sep l = [] := by
  rw [pyRstripChar, List.dropWhile_eq_nil_iff.mpr, List.reverse_nil]
  intro c hc
  simpa using h c (List.mem_reverse.mp hc)

lemma pieces_all_nil_chars {sep : Char} {l : List Char}
    (h : ∀ p ∈ pySplit sep l, p = []) : ∀ c ∈ l, c = sep := by
  intro c hc
  rcases @mem_pySplit sep c l hc with rfl | ⟨p, hp, hcp⟩
  · rfl
  · rw [h p hp] at hcp
    simp at hcp

lemma labels_ne_nil {hostname : List Char} (hne : hostname ≠ [])
    (hr : pyRstripChar '.' hostname = hostname) :
    (pySplit '.' hostname).filter (fun l => !l.isEmpty) ≠ [] := by
  intro h0
  rw [List.filter_eq_nil_iff] at h0
  have hall : ∀ p ∈ pySplit '.' hostname, p = [] := by
    intro p hp
    have h2 := h0 p hp
    simpa [List.isEmpty_iff] using h2
  have h3 := rstrip_eq_nil_of_all (pieces_all_nil_chars hall)
  rw [hr] at h3
  exact hne h3

lemma githubPagesAlias_ok (hn : List Char) (segs : List (List Char)) (s : List Char)
    (hs : pyStripChar '.' s ≠ []) :
    ∃ o, githubPagesAlias hn segs s = .ok o ∧
      ∀ al, o = some al → ∃ t, al = t ++ '.' :: pyStripChar '.' s := by
  rw [githubPagesAlias]
  by_cases he : endsWithL hn githubSuffix
  · rw [if_neg (by simp [he])]
    have his : (pyStripChar '.' s).isEmpty = false := by
      cases hsv : pyStripChar '.' s
      · exact absurd hsv hs
      · rfl
    simp only [his, Bool.false_eq_true, if_false]
    by_cases hc : (sanitiseLabel ((segs.headD
        (pyStripChar '.' (dropLastN githubSuffix.length hn))))).isEmpty
    · rw [if_pos hc]
      exact ⟨none, rfl, fun al hal => by cases hal⟩
    · rw [if_neg hc]
      exact ⟨some _, rfl, fun al hal => by cases hal; exact ⟨_, rfl⟩⟩
  · rw [if_pos (by simp [he])]
    exact ⟨none, rfl, fun al hal => by cases hal⟩

lemma replaceSuffix_ok (domain suffix : List Char)
    (hd : (pySplit '.' domain).filter (fun l => !l.isEmpty) ≠ [])
    (hs : pyStripChar '.' suffix ≠ []) :
    ∃ r, replaceSuffix domain suffix = .ok r ∧
      ∃ t, r = t ++ '.' :: pyStripChar '.' suffix := by
  rw [replaceSuffix]
  have hdi : ((pySplit '.' domain).filter (fun l => !l.isEmpty)).isEmpty = false := by
    cases hv : (pySplit '.' domain).filter (fun l => !l.isEmpty)
    · exact absurd hv hd
    · rfl
  have hsi : (pyStripChar '.' suffix).isEmpty = false := by
    cases hv : pyStripChar '.' suffix
    · exact absurd hv hs
    · rfl
  simp only [hdi, hsi, Bool.false_eq_true, if_false]
  by_cases hlen : ((pySplit '.' domain).filter (fun l => !l.isEmpty)).length = 1
  · rw [if_pos hlen]
    exact ⟨_, rfl, _, rfl⟩
  · rw [if_neg hlen]
    refine ⟨_, rfl, joinSep '.' ((pySplit '.' domain).filter (fun l => !l.isEmpty)).dropLast, ?_⟩
    have hlen2 : 2 ≤ ((pySplit '.' domain).filter (fun l => !l.isEmpty)).length := by
      cases hv : (pySplit '.' domain).filter (fun l => !l.isEmpty) with
      | nil => exact absurd hv hd
      | cons x ls =>
        cases ls with
        | nil => rw [hv] at hlen; simp at hlen
        | cons y ys => simp
    have hdl : ((pySplit '.' domain).filter (fun l => !l.isEmpty)).dropLast ≠ [] := by
      intro h0
      have := congrArg List.length h0
      rw [List.length_dropLast] at this
      simp at this
      omega
    rw [joinSep_append hdl (by simp)]
    rfl

/-- C6 (amended): whenever the best-effort parse of `h` yields a non-empty
hostname and `s` is non-empty after trimming dots, `name(h, s)` returns a
string that ends with `"."` followed by the dot-trimmed `s`. -/
theorem name_ends_with_trimmed_suffix (h s : List Char)
    (hh : (splitHostnameAndPath h).1 ≠ [])
    (hs : pyStripChar '.' s ≠ []) :
    ∃ r, name h s = .ok r ∧ ∃ t, r = t ++ '.' :: pyStripChar '.' s := by
  rw [name]
  have hie : (splitHostnameAndPath h).1.isEmpty = false := by
    cases hv : (splitHostnameAndPath h).1
    · exact absurd hv hh
    · rfl
  simp only [hie, Bool.false_eq_true, if_false]
  obtain ⟨o, ho, hal⟩ := githubPagesAlias_ok (splitHostnameAndPath h).1
    (splitHostnameAndPath h).2 s hs
  rw [ho]
  cases o with
  | some al =>
    obtain ⟨t, ht⟩ := hal al rfl
    exact ⟨al, rfl, t, ht⟩
  | none =>
    obtain ⟨x, hx⟩ := splitHost_fst_rstripped h
    have hrr : pyRstripChar '.' (splitHostnameAndPath h).1 = (splitHostnameAndPath h).1 := by
      rw [hx, pyRstripChar_idem]
    rw [hrr]
    exact replaceSuffix_ok _ _ (labels_ne_nil hh hrr) hs

/-- Witness for `name_ends_with_trimmed_suffix` at
`name("www.example.com", "org")`. -/
theorem name_ends_with_trimmed_suffix_witness :
    (splitHostnameAndPath (("www.example.com").toList)).1 ≠ [] ∧
    pyStripChar '.' (("org").toList) ≠ [] ∧
    ∃ r, name (("www.example.com").toList) (("org").toList) = .ok r ∧
      ∃ t, r = t ++ '.' :: pyStripChar '.' (("org").toList) :=
  ⟨by decide, by decide,
   name_ends_with_trimmed_suffix (("www.example.com").toList) (("org").toList)
     (by decide) (by decide)⟩

lemma good_labels {h : List Char} (hg : goodHostname h = true) :
    (pySplit '.' h).filter (fun l => !l.isEmpty) = pySplit '.' h := by
  apply List.filter_eq_self.mpr
  intro p hp
  have h2 := goodHostname_pieces hg p hp
  simpa [List.isEmpty_iff] using h2

lemma splitHostnameAndPath_good {h : List Char} (hg : goodHostname h = true) :
    splitHostnameAndPath h = (h, []) := by
  rw [splitHostnameAndPath, parseInput_good h hg]

/-- C5 (amended): for every well-formed hostname with at least two labels,
`zone` produces a string ending in the fixed suffix `zwb`; and for at
least three labels, whenever `node` is non-empty,
`node + "." + <second-to-last label>` is a prefix of the hostname.  (At
exactly two labels the round-trip fails — see the counterexample.) -/
theorem zone_ends_zwb_and_node_roundtrip (h : List Char)
    (hg : goodHostname h = true) (hlen : 2 ≤ (pySplit '.' h).length) :
    (∃ z, zone h = .ok z ∧ endsWithL z zwbSuffix = true) ∧
    (3 ≤ (pySplit '.' h).length →
      ∀ nd, node h = .ok nd → nd ≠ [] →
        startsWith h (nd ++ '.' :: secondToLast (pySplit '.' h)) = true) := by
  have hsp := splitHostnameAndPath_good hg
  have hne := goodHostname_ne_nil hg
  have hie : h.isEmpty = false := by
    cases hv : h
    · exact absurd hv hne
    · rfl
  have hlab := good_labels hg
  have hzs : pyStripChar '.' zwbSuffix = zwbSuffix := rfl
  obtain ⟨o, ho, hal⟩ := githubPagesAlias_ok h [] zwbSuffix (by decide)
  have hlabne : (pySplit '.' h).isEmpty = false := by
    cases hv : pySplit '.' h
    · exact absurd hv (pySplit_ne_nil '.' h)
    · rfl
  constructor
  · simp only [zone, hsp, hie, Bool.false_eq_true, if_false, ho]
    cases o with
    | some al =>
      obtain ⟨t, ht⟩ := hal al rfl
      rw [hzs] at ht
      refine ⟨al, rfl, ?_⟩
      rw [ht, show t ++ '.' :: zwbSuffix = (t ++ ['.']) ++ zwbSuffix by simp]
      exact endsWithL_append _ _
    | none =>
      simp only [hlab, hlabne, Bool.false_eq_true, if_false]
      rw [if_neg (by omega)]
      have hld : ((pySplit '.' h).drop ((pySplit '.' h).length - 2)).length = 2 := by
        rw [List.length_drop]
        omega
      obtain ⟨x, y, hxy⟩ := List.length_eq_two.mp hld
      have hxmem : x ∈ pySplit '.' h := by
        have : x ∈ (pySplit '.' h).drop ((pySplit '.' h).length - 2) := by simp [hxy]
        exact List.mem_of_mem_drop this
      have hymem : y ∈ pySplit '.' h := by
        have : y ∈ (pySplit '.' h).drop ((pySplit '.' h).length - 2) := by simp [hxy]
        exact List.mem_of_mem_drop this
      have hxdot : '.' ∉ x := sep_not_mem_pySplit x hxmem
      have hydot : '.' ∉ y := sep_not_mem_pySplit y hymem
      have hxne : x ≠ [] := goodHostname_pieces hg x hxmem
      have hyne : y ≠ [] := goodHostname_pieces hg y hymem
      rw [hxy, show joinSep '.' [x, y] = x ++ '.' :: y from rfl]
      have hsplit2 : pySplit '.' (x ++ '.' :: y) = [x, y] := by
        rw [pySplit_append_sepFree hxdot, pySplit_sepFree hydot]
      have hfil2 : (pySplit '.' (x ++ '.' :: y)).filter (fun l => !l.isEmpty) = [x, y] := by
        rw [hsplit2]
        apply List.filter_eq_self.mpr
        intro p hp
        rcases List.mem_cons.mp hp with rfl | hp2
        · simpa [List.isEmpty_iff] using hxne
        · simp only [List.mem_singleton] at hp2
          subst hp2
          simpa [List.isEmpty_iff] using hyne
      obtain ⟨r, hr, t, ht⟩ := replaceSuffix_ok (x ++ '.' :: y) zwbSuffix
        (by rw [hfil2]; simp) (by decide)
      refine ⟨r, hr, ?_⟩
      rw [hzs] at ht
      rw [ht, show t ++ '.' :: zwbSuffix = (t ++ ['.']) ++ zwbSuffix by simp]
      exact endsWithL_append _ _
  · intro h3 nd hnd hndne
    rw [node, hsp] at hnd
    simp only [hie, Bool.false_eq_true, if_false, ho] at hnd
    cases o with
    | some al =>
      simp only [List.isEmpty_nil, Bool.not_true, Bool.false_eq_true, if_false] at hnd
      cases hnd
      exact absurd rfl hndne
    | none =>
      simp only [hlab] at hnd
      rw [if_neg (by omega)] at hnd
      have hnd2 : joinSep '.' ((pySplit '.' h).take ((pySplit '.' h).length - 2)) = nd := by
        injection hnd
      set n := (pySplit '.' h).length with hn
      have hld : ((pySplit '.' h).drop (n - 2)).length = 2 := by
        rw [List.length_drop]
        omega
      obtain ⟨x, y, hxy⟩ := List.length_eq_two.mp hld
      have htakene : (pySplit '.' h).take (n - 2) ≠ [] := by
        intro h0
        have h4 := congrArg List.length h0
        rw [List.length_take] at h4
        simp at h4
        omega
      have hstl : secondToLast (pySplit '.' h) = x := by
        rw [secondToLast, ← hn, hxy]
        rfl
      have hjoin : h = joinSep '.' ((pySplit '.' h).take (n - 2)) ++
          '.' :: (x ++ '.' :: y) := by
        conv_lhs => rw [← joinSep_pySplit '.' h]
        conv_lhs => rw [← List.take_append_drop (n - 2) (pySplit '.' h)]
        rw [joinSep_append htakene (by rw [hxy]; simp), hxy]
        rfl
      rw [hstl]
      rw [show h = (nd ++ '.' :: x) ++ '.' :: y from by rw [hjoin, ← hnd2]; simp]
      exact startsWith_append _ _

/-- Witness for `zone_ends_zwb_and_node_roundtrip` at `www.example.com`:
`zone` ends in `zwb` and `node + "." + "example"` is a prefix. -/
theorem zone_ends_zwb_and_node_roundtrip_witness :
    goodHostname (("www.example.com").toList) = true ∧
    (∃ z, zone (("www.example.com").toList) = .ok z ∧ endsWithL z zwbSuffix = true) ∧
    startsWith (("www.example.com").toList)
      ((("www").toList) ++ '.' :: secondToLast (pySplit '.' (("www.example.com").toList))) =
      true := by
  refine ⟨by decide, (zone_ends_zwb_and_node_roundtrip _ (by decide) (by decide)).1, ?_⟩
  exact (zone_ends_zwb_and_node_roundtrip (("www.example.com").toList) (by decide)
    (by decide)).2 (by decide) (("www").toList) (by rfl) (by decide)

/-- C9: `cleanup_on_exit` attempts to delete every entry under the
volatile cache root — exactly the entries whose deletion raised remain,
so with no failures the cache root is emptied — and it leaves the data
root entries, the persisted directory file, and the in-memory
`cached_sites` list untouched; every previously persisted alias is still
listed afterwards. -/
theorem cleanup_on_exit_purges_cache_only (st : PState) (delFails : List Char → Bool) :
    (cleanupOnExit st delFails).cacheEntries = st.cacheEntries.filter delFails ∧
    (cleanupOnExit st delFails).dataEntries = st.dataEntries ∧
    (cleanupOnExit st delFails).metaFile = st.metaFile ∧
    (cleanupOnExit st delFails).cached_sites = st.cached_sites ∧
    (∀ a, a ∈ diskAliases st → a ∈ diskAliases (cleanupOnExit st delFails)) := by
  have hframe := deleteFold_frame delFails st.cacheEntries (stopServer st)
  have hcache := deleteFold_cacheEntries delFails st.cacheEntries (stopServer st)
  have hmeta : (cleanupOnExit st delFails).metaFile = st.metaFile := hframe.2.1
  refine ⟨?_, hframe.1, hmeta, hframe.2.2, ?_⟩
  · rw [cleanupOnExit, hcache]
    show (stopServer st).cacheEntries.filter _ = _
    simp only [stopServer]
    apply List.filter_congr
    intro x hx
    simp [hx]
  · intro a ha
    simpa [diskAliases, hmeta] using ha

/-- Witness for `cleanup_on_exit_purges_cache_only`: a state with one
persisted alias and one cache entry; cleanup with no deletion failures
empties the cache root and keeps the alias on disk. -/
theorem cleanup_on_exit_purges_cache_only_witness :
    (("a1").toList ∈ diskAliases c9WitnessState) ∧
    (("a1").toList ∈ diskAliases (cleanupOnExit c9WitnessState (fun _ => false))) ∧
    (cleanupOnExit c9WitnessState (fun _ => false)).cacheEntries = [] := by
  refine ⟨by decide, ?_, ?_⟩
  · exact (cleanup_on_exit_purges_cache_only c9WitnessState (fun _ => false)).2.2.2.2 _
      (by decide)
  · rw [(cleanup_on_exit_purges_cache_only c9WitnessState (fun _ => false)).1]
    decide

/-- C4: `install_site` is atomic with respect to the site directory:
whenever it fails (download error or storage error) the in-memory
`cached_sites` list and the persisted metadata file are exactly as
before the call, and any change to either implies the call returned a
`CachedSite` successfully. -/
theorem install_site_atomic (st : PState) (source alias2 hostname : List Char)
    (dl : Option (List Nat)) (w1Ok w2Ok mOk : Bool) :
    (∀ e, (installSite st source alias2 hostname dl w1Ok w2Ok mOk).1 = .error e →
        (installSite st source alias2 hostname dl w1Ok w2Ok mOk).2.cached_sites =
          st.cached_sites ∧
        (installSite st source alias2 hostname dl w1Ok w2Ok mOk).2.metaFile = st.metaFile) ∧
    (((installSite st source alias2 hostname dl w1Ok w2Ok mOk).2.cached_sites ≠
          st.cached_sites ∨
        (installSite st source alias2 hostname dl w1Ok w2Ok mOk).2.metaFile ≠ st.metaFile) →
      ∃ site, (installSite st source alias2 hostname dl w1Ok w2Ok mOk).1 = .ok site) := by
  cases dl <;> cases w1Ok <;> cases w2Ok <;>
    simp [installSite, registerSite, writeMetadata]

/-- Witness for `install_site_atomic`: a failing download against the
fresh manager leaves the directory and the metadata file unchanged. -/
theorem install_site_atomic_witness :
    (installSite initState (("x").toList) (("a").toList) (("h").toList)
        none true true true).1 = .error (("failed to download site").toList) ∧
    (installSite initState (("x").toList) (("a").toList) (("h").toList)
        none true true true).2.cached_sites = initState.cached_sites ∧
    (installSite initState (("x").toList) (("a").toList) (("h").toList)
        none true true true).2.metaFile = initState.metaFile := by
  refine ⟨by rfl, ?_, ?_⟩
  · exact ((install_site_atomic initState (("x").toList) (("a").toList) (("h").toList)
      none true true true).1 _ (by rfl)).1
  · exact ((install_site_atomic initState (("x").toList) (("a").toList) (("h").toList)
      none true true true).1 _ (by rfl)).2

lemma entryToSite_eq_toEntry (e : JsonEntry) (s : CachedSite)
    (h : entryToSite e = some s) :
    e = toEntry s ∧ s.alias_ ≠ [] ∧ s.source ≠ [] ∧ s.hostname ≠ [] ∧
      s.cache_path ≠ [] ∧ s.data_path ≠ [] := by
  obtain ⟨a, b, c, d, f⟩ := e
  unfold entryToSite at h
  split at h
  · next htr =>
    simp only [Option.some.injEq] at h
    subst h
    simp only [truthy, Bool.and_eq_true] at htr
    cases a <;> cases b <;> cases c <;> cases d <;> cases f <;>
      simp_all [toEntry, List.isEmpty_iff]
  · exact absurd h (by simp)

lemma writeMetadata_aliasInv (st : PState) (wOk : Bool)
    (h : (st.cached_sites.map CachedSite.alias_).Nodup)
    (hm : ∀ es, st.metaFile = some es → (es.map JsonEntry.alias_).Nodup) :
    aliasInv (writeMetadata st wOk) := by
  unfold writeMetadata
  split
  · refine ⟨h, ?_⟩
    intro es hes
    simp only [Option.some.injEq] at hes
    subst hes
    have : (st.cached_sites.map toEntry).map JsonEntry.alias_ =
        (st.cached_sites.map CachedSite.alias_).map Option.some := by
      simp [toEntry, Function.comp_def]
    rw [this]
    exact h.map (fun _ _ hx => Option.some.inj hx)
  · exact ⟨h, hm⟩

lemma loadMetadata_nodup (es : List JsonEntry)
    (h : (es.map JsonEntry.alias_).Nodup) :
    ((es.filterMap entryToSite).map CachedSite.alias_).Nodup := by
  induction es with
  | nil => simp
  | cons e t ih =>
    simp only [List.map_cons, List.nodup_cons] at h
    cases hs : entryToSite e with
    | none => simpa [List.filterMap_cons, hs] using ih h.2
    | some s =>
      obtain ⟨heq, -⟩ := entryToSite_eq_toEntry e s hs
      simp only [List.filterMap_cons, hs, List.map_cons, List.nodup_cons]
      refine ⟨?_, ih h.2⟩
      intro hmem
      apply h.1
      simp only [List.mem_map] at hmem ⊢
      obtain ⟨s2, hs2mem, hs2⟩ := hmem
      obtain ⟨e2, he2mem, he2⟩ := List.mem_filterMap.mp hs2mem
      obtain ⟨heq2, -⟩ := entryToSite_eq_toEntry e2 s2 he2
      refine ⟨e2, he2mem, ?_⟩
      rw [heq2, heq, toEntry, toEntry]
      simp [hs2]

lemma nodup_register (sites : List CachedSite) (site : CachedSite)
    (h : (sites.map CachedSite.alias_).Nodup) :
    (((sites.filter (fun s => !(s.alias_ = site.alias_ : Bool))) ++ [site]).map
        CachedSite.alias_).Nodup := by
  rw [List.map_append]
  apply List.Nodup.append
  · exact h.sublist (List.Sublist.map _ (List.filter_sublist sites))
  · simp
  · intro x hx hx2
    simp only [List.map_cons, List.map_nil, List.mem_singleton] at hx2
    subst hx2
    simp only [List.mem_map] at hx
    obtain ⟨s, hsmem, hs⟩ := hx
    have := List.of_mem_filter hsmem
    simp [hs] at this

lemma nodup_mark (sites : List CachedSite) (site : CachedSite)
    (h : (sites.map CachedSite.alias_).Nodup)
    (hnot : site.alias_ ∉ sites.map CachedSite.alias_) :
    ((sites ++ [site]).map CachedSite.alias_).Nodup := by
  rw [List.map_append]
  apply List.Nodup.append h (by simp)
  intro x hx hx2
  simp only [List.map_cons, List.map_nil, List.mem_singleton] at hx2
  subst hx2
  exact hnot hx

lemma applyOp_aliasInv (st : PState) (op : POp) (h : aliasInv st) :
    aliasInv (applyOp st op) := by
  obtain ⟨hmem, hdisk⟩ := h
  cases op with
  | load =>
    simp only [applyOp, loadMetadata]
    cases hm : st.metaFile with
    | none =>
      refine ⟨by simp, ?_⟩
      intro es hes
      simp at hes
    | some es =>
      refine ⟨loadMetadata_nodup es (hdisk es hm), ?_⟩
      intro es2 hes2
      simp only [Option.some.injEq] at hes2
      subst hes2
      exact hdisk es hm
  | mark alias2 mOk =>
    simp only [applyOp, markSiteCached]
    split
    · exact ⟨hmem, hdisk⟩
    · next hni =>
      apply writeMetadata_aliasInv
      · exact nodup_mark _ _ hmem (by simpa using hni)
      · exact hdisk
  | install source alias2 hostname dl w1Ok w2Ok mOk =>
    simp only [applyOp, installSite]
    cases dl with
    | none => exact ⟨hmem, hdisk⟩
    | some content =>
      cases hw : w1Ok && w2Ok with
      | true =>
        rw [if_pos (by simp [hw])]
        exact writeMetadata_aliasInv _ _ (nodup_register _ _ hmem) hdisk
      | false =>
        rw [if_neg (by simp [hw])]
        exact ⟨hmem, hdisk⟩

/-- C7: alias uniqueness is an invariant of the site directory — after
any sequence of `_load_metadata`, `install_site`, `mark_site_cached`
operations starting from a fresh manager, every alias occurs in at most
one `CachedSite` of `cached_sites` (and of the persisted file). -/
theorem alias_unique_invariant (ops : List POp) :
    ((runOps ops).cached_sites.map CachedSite.alias_).Nodup ∧
    (∀ es, (runOps ops).metaFile = some es → (es.map JsonEntry.alias_).Nodup) := by
  have hgen : ∀ (l : List POp) (st : PState), aliasInv st → aliasInv (l.foldl applyOp st) := by
    intro l
    induction l with
    | nil => intro st h; exact h
    | cons op t ih => intro st h; exact ih _ (applyOp_aliasInv st op h)
  exact hgen ops initState ⟨by simp [initState], fun es hes => by simp [initState] at hes⟩

/-- Witness for `alias_unique_invariant`: after one `mark_site_cached`
the in-memory aliases and the persisted aliases are duplicate-free. -/
theorem alias_unique_invariant_witness :
    ((runOps [POp.mark (("a").toList) true]).cached_sites.map CachedSite.alias_).Nodup ∧
    (((runOps [POp.mark (("a").toList) true]).metaFile.getD []).map
        JsonEntry.alias_).Nodup := by
  have h := alias_unique_invariant [POp.mark (("a").toList) true]
  exact ⟨h.1, h.2 _ (by rfl)⟩

lemma mem_loadMetadata (st : PState) (s : CachedSite)
    (hs : s ∈ (loadMetadata st).cached_sites) :
    ∃ es, st.metaFile = some es ∧ ∃ e ∈ es, entryToSite e = some s := by
  rw [loadMetadata] at hs
  cases hm : st.metaFile with
  | none => rw [hm] at hs; simp at hs
  | some es =>
    rw [hm] at hs
    have hs2 : s ∈ es.filterMap entryToSite := hs
    obtain ⟨e, hemem, he⟩ := List.mem_filterMap.mp hs2
    exact ⟨es, rfl, e, hemem, he⟩

lemma noReal_writeMetadata (a : List Char) (st : PState) (wOk : Bool)
    (h1 : ∀ s ∈ st.cached_sites, s.alias_ = a → s.source = [])
    (h2 : ∀ es, st.metaFile = some es → ∀ e ∈ es, e.alias_ = some a → e.source = some []) :
    noRealAlias a (writeMetadata st wOk) := by
  unfold writeMetadata
  split
  · refine ⟨h1, ?_⟩
    intro es hes
    simp only [Option.some.injEq] at hes
    subst hes
    intro e he hal
    obtain ⟨s, hsmem, rfl⟩ := List.mem_map.mp he
    simp only [toEntry, Option.some.injEq] at hal ⊢
    exact h1 s hsmem hal
  · exact ⟨h1, h2⟩

lemma applyOp_noReal (a : List Char) (st : PState) (op : POp)
    (hop : ∀ source al hostname dl w1 w2 m, op = POp.install source al hostname dl w1 w2 m →
      al ≠ a)
    (h : noRealAlias a st) : noRealAlias a (applyOp st op) := by
  obtain ⟨hmem, hdisk⟩ := h
  cases op with
  | load =>
    simp only [applyOp]
    refine ⟨?_, ?_⟩
    · intro s hs hal
      obtain ⟨es, hm, e, hemem, he⟩ := mem_loadMetadata st s hs
      obtain ⟨heq, -⟩ := entryToSite_eq_toEntry e s he
      have h2 := hdisk es hm e hemem (by rw [heq, toEntry]; simpa using congrArg some hal)
      rw [heq] at h2
      simpa [toEntry] using h2
    · intro es2 hes2
      have : st.metaFile = some es2 := by
        rw [loadMetadata] at hes2
        cases hm : st.metaFile with
        | none => rw [hm] at hes2; exact hes2
        | some es => rw [hm] at hes2; exact hes2
      exact hdisk es2 this
  | mark al mOk =>
    simp only [applyOp, markSiteCached]
    split
    · exact ⟨hmem, hdisk⟩
    · apply noReal_writeMetadata
      · intro s hs hal
        rcases List.mem_append.mp hs with hold | hnew
        · exact hmem s hold hal
        · simp only [List.mem_singleton] at hnew
          subst hnew
          rfl
      · exact hdisk
  | install source al hostname dl w1 w2 m =>
    have hal : al ≠ a := hop source al hostname dl w1 w2 m rfl
    simp only [applyOp, installSite]
    cases dl with
    | none => exact ⟨hmem, hdisk⟩
    | some content =>
      cases hw : w1 && w2 with
      | false =>
        rw [if_neg (by simp [hw])]
        exact ⟨hmem, hdisk⟩
      | true =>
        rw [if_pos (by simp [hw])]
        unfold registerSite
        apply noReal_writeMetadata
        · intro s hs hsa
          rcases List.mem_append.mp hs with hold | hnew
          · exact hmem s (List.mem_of_mem_filter hold) hsa
          · simp only [List.mem_singleton] at hnew
            subst hnew
            exact absurd hsa hal
        · exact hdisk

/-- C10: `_load_metadata` silently discards every persisted entry with a
missing or empty field, so the placeholder entries that
`mark_site_cached` persists (empty `source`/`hostname`) never survive a
reload: an alias that was marked but never installed is absent after a
load. -/
theorem load_discards_incomplete_entries :
    (∀ (st : PState) (s : CachedSite), s ∈ (loadMetadata st).cached_sites →
        s.alias_ ≠ [] ∧ s.source ≠ [] ∧ s.hostname ≠ [] ∧
          s.cache_path ≠ [] ∧ s.data_path ≠ []) ∧
    (∀ (ops : List POp) (a : List Char), marksOf a ops = true →
        noInstallOf a ops = true →
        a ∉ (loadMetadata (runOps ops)).cached_sites.map CachedSite.alias_) := by
  constructor
  · intro st s hs
    obtain ⟨es, hm, e, hemem, he⟩ := mem_loadMetadata st s hs
    obtain ⟨-, h2, h3, h4, h5, h6⟩ := entryToSite_eq_toEntry e s he
    exact ⟨h2, h3, h4, h5, h6⟩
  · intro ops a hmark hnoinst hmem
    have hgen : ∀ (l : List POp) (st : PState), noInstallOf a l = true →
        noRealAlias a st → noRealAlias a (l.foldl applyOp st) := by
      intro l
      induction l with
      | nil => intro st _ h; exact h
      | cons op t ih =>
        intro st hall h
        rw [noInstallOf, List.all_cons, Bool.and_eq_true] at hall
        refine ih _ hall.2 (applyOp_noReal a st op ?_ h)
        intro source al hostname dl w1 w2 m heq
        subst heq
        simpa using hall.1
    have hinv : noRealAlias a (runOps ops) :=
      hgen ops initState hnoinst ⟨by simp [initState], fun es hes => by simp [initState] at hes⟩
    have hinv2 : noRealAlias a (loadMetadata (runOps ops)) :=
      applyOp_noReal a (runOps ops) .load (by intro source al hostname dl w1 w2 m h; cases h) hinv
    obtain ⟨s, hsmem, hsa⟩ := List.mem_map.mp hmem
    have hsrc : s.source = [] := hinv2.1 s hsmem hsa
    obtain ⟨es, hm, e, hemem, he⟩ := mem_loadMetadata (runOps ops) s hsmem
    obtain ⟨-, -, h3, -⟩ := entryToSite_eq_toEntry e s he
    exact h3 hsrc

/-- Witness for `load_discards_incomplete_entries`: the alias `a` is
marked (and persisted) but never installed, and a subsequent load drops
it. -/
theorem load_discards_incomplete_entries_witness :
    marksOf (("a").toList) [POp.mark (("a").toList) true] = true ∧
    noInstallOf (("a").toList) [POp.mark (("a").toList) true] = true ∧
    (("a").toList) ∉ (loadMetadata (runOps [POp.mark (("a").toList) true])).cached_sites.map
        CachedSite.alias_ := by
  refine ⟨by rfl, by rfl, ?_⟩
  exact load_discards_incomplete_entries.2 [POp.mark (("a").toList) true] (("a").toList)
    (by rfl) (by rfl)

lemma utf8Step_length {b : Nat} {rest : List Nat} {c : Char} {r : List Nat}
    (h : utf8Step b rest = some (c, r)) : r.length ≤ rest.length := by
  simp only [utf8Step] at h
  repeat' split at h
  all_goals cases h
  all_goals simp
  all_goals omega

lemma decodeIgnoreFuel_of_strict :
    ∀ (n : Nat) (l : List Nat) (s : List Char), l.length ≤ n →
      decodeStrictFuel n l = some s → decodeIgnoreFuel n l = s := by
  intro n
  induction n with
  | zero =>
    intro l s hlen hdec
    cases l with
    | nil =>
      rw [decodeStrictFuel] at hdec
      cases hdec
      rfl
    | cons b rest => simp at hlen
  | succ n ih =>
    intro l s hlen hdec
    cases l with
    | nil =>
      rw [decodeStrictFuel] at hdec
      cases hdec
      rfl
    | cons b rest =>
      simp only [List.length_cons, Nat.succ_le_succ_iff] at hlen
      rw [decodeStrictFuel] at hdec
      rw [decodeIgnoreFuel]
      cases hstep : utf8Step b rest with
      | none =>
        rw [hstep] at hdec
        simp at hdec
      | some cr =>
        obtain ⟨c, r⟩ := cr
        rw [hstep] at hdec
        dsimp only at hdec
        dsimp only
        cases hrec : decodeStrictFuel n r with
        | none => rw [hrec] at hdec; simp at hdec
        | some s2 =>
          rw [hrec] at hdec
          simp only [Option.map_some', Option.some.injEq] at hdec
          have hr : r.length ≤ n := le_trans (utf8Step_length hstep) hlen
          rw [ih r s2 hr hrec, hdec]

/-- `decode("utf-8")` strict and `decode("utf-8", "ignore")` agree on
valid UTF-8 input. -/
lemma decodeUtf8Ignore_of_strict {l : List Nat} {s : List Char}
    (hdec : decodeUtf8? l = some s) : decodeUtf8Ignore l = s :=
  decodeIgnoreFuel_of_strict l.length l s le_rfl hdec

/-- C8 (amended): for every payload that is valid UTF-8, the peer handler
answers the pong object exactly when the decoded text, stripped of
whitespace and upper-cased, equals `PING`; every other valid payload gets
`status:"ok"`, the manager's configured `public_ip`, and the current
site-directory contents.  (Invalid UTF-8 payloads are decoded with the
offending bytes dropped, so some of them also produce the pong — see the
counterexample.) -/
theorem peer_handle_on_valid_utf8 (st : PState) (raw : List Nat) (s : List Char)
    (hdec : decodeUtf8? raw = some s) :
    peerHandle st raw =
      (if (pyStrip s).map Char.toUpper = pingWord then
        [(kStatus, .str vOk), (kMessage, .str vPong)]
      else
        [(kStatus, .str vOk), (kPublicIp, .str st.publicIp),
         (kSites, .sites st.cached_sites)]) := by
  rw [peerHandle, decodeUtf8Ignore_of_strict hdec]

/-- Witness for `peer_handle_on_valid_utf8`: the payload `b"ping"` is
valid UTF-8 and yields the pong object. -/
theorem peer_handle_on_valid_utf8_witness :
    decodeUtf8? [112, 105, 110, 103] = some (("ping").toList) ∧
    peerHandle initState [112, 105, 110, 103] =
      [(kStatus, .str vOk), (kMessage, .str vPong)] := by
  refine ⟨by rfl, ?_⟩
  rw [peer_handle_on_valid_utf8 initState [112, 105, 110, 103] (("ping").toList) (by rfl)]
  rfl

/-- C3: the hosting-provider alias rule yields exactly the claimed facets:
`describe("hello.github.io")` gives zone `hello.zwb`, node `""`, name
`hello.zwb`, and `describe("hello.github.io/hi")` gives zone `hi.zwb`,
node `hello`, name `hi.zwb`. -/
theorem describe_github_pages_alias_facets :
    describe (("hello.github.io").toList) =
      .ok ⟨("hello.github.io").toList, ("hello.zwb").toList, [], ("hello.zwb").toList⟩ ∧
    describe (("hello.github.io/hi").toList) =
      .ok ⟨("hello.github.io").toList, ("hi.zwb").toList, ("hello").toList,
           ("hi.zwb").toList⟩ := by
  exact ⟨rfl, rfl⟩

/-- C1 counterexample: for `raw = "http://"` strict URL parsing cannot
extract a hostname (`_parse_input` raises), yet `describe("http://")`
succeeds — the best-effort fallback treats the trimmed raw string itself
as the hostname.  So `describe` does not fail on every strictly
unparseable input, contrary to the claim. -/
theorem describe_succeeds_on_unparseable_url :
    parseInput (("http://").toList) = .error errNoHostname ∧
    describe (("http://").toList) =
      .ok ⟨("http://").toList, ("http://.zwb").toList, ("http://").toList,
           ("http://.zwb").toList⟩ := by
  exact ⟨rfl, rfl⟩

/-- C1 (amended): `describe(raw)` fails with `InvalidInputError` whenever
`raw` strips to the empty string — in particular on `""` and `"   "`. -/
theorem describe_fails_on_blank_input (raw : List Char) (h : pyStrip raw = []) :
    describe raw = .error errHostnameRequired := by
  simp [describe, splitHostnameAndPath, parseInput, h, pyRstripChar, List.isEmpty_nil]

/-- Witness for `describe_fails_on_blank_input` at `raw = "   "`. -/
theorem describe_fails_on_blank_input_witness :
    pyStrip (("   ").toList) = [] ∧
    describe (("   ").toList) = .error errHostnameRequired :=
  ⟨by rfl, describe_fails_on_blank_input (("   ").toList) (by rfl)⟩

/-- C2 counterexample: the response `serve` sends when the request bytes
are not valid UTF-8 (here the single byte `0xFF`) has `status = "error"`
but carries neither a `domain_server` nor an `error_page` key, contrary
to the claim that every error response contains all four keys. -/
theorem decode_error_response_missing_keys :
    lookupKey (serveResponse (("1.1.1.1").toList) [] [255]) kStatus = some (.str vError) ∧
    lookupKey (serveResponse (("1.1.1.1").toList) [] [255]) kDomainServer = none ∧
    lookupKey (serveResponse (("1.1.1.1").toList) [] [255]) kErrorPage = none := by
  exact ⟨rfl, rfl, rfl⟩

/-- C5 counterexample: for the two-label hostname `example.com`, `node`
returns `example` (non-empty) and the second-to-last label is `example`,
but `example.example` is not a prefix of `example.com` — the structural
round-trip fails at exactly two labels. -/
theorem node_roundtrip_fails_on_two_labels :
    goodHostname (("example.com").toList) = true ∧
    (pySplit '.' (("example.com").toList)).length = 2 ∧
    node (("example.com").toList) = .ok (("example").toList) ∧
    secondToLast (pySplit '.' (("example.com").toList)) = ("example").toList ∧
    startsWith (("example.com").toList)
      ((("example").toList) ++ '.' :: ("example").toList) = false := by
  exact ⟨rfl, rfl, rfl, rfl, rfl⟩

/-- C6 counterexample: `name` does not return a suffixed string for every
non-empty `h` and `s`: `name(".", "zwb")` raises `InvalidInputError`
(the hostname strips to nothing), and `name("a", ".")` raises as well
(the suffix trims to nothing). -/
theorem name_raises_on_degenerate_inputs :
    name ((".").toList) (("zwb").toList) = .error errEmptyDomain ∧
    name (("a").toList) ((".").toList) = .error errEmptySuffix := by
  exact ⟨rfl, rfl⟩

lemma lookup_head (k : List Char) (v : JVal) (rest : JObj) :
    lookupKey ((k, v) :: rest) k = some v := by
  rw [lookupKey, if_pos rfl]

lemma lookup_errorPayload_message (ds m r : List Char) :
    lookupKey (errorPayload ds m r) kMessage = some (.str m) := rfl

lemma lookup_errorPayload_domain (ds m r : List Char) :
    lookupKey (errorPayload ds m r) kDomainServer = some (.str ds) := rfl

lemma lookup_errorPayload_page (ds m r : List Char) :
    lookupKey (errorPayload ds m r) kErrorPage = some (.str (buildErrorPage m r)) := rfl

lemma buildErrorPage_decomp (m r : List Char) :
    buildErrorPage m r =
      pageHead ++ ((if (pyStrip r).isEmpty then defaultRequestText else pyStrip r) ++
        (pageMid ++ ((if (pyStrip m).isEmpty then defaultMessageText else pyStrip m) ++
          pageTail))) := by
  simp only [buildErrorPage]
  simp [List.append_assoc]

lemma buildErrorPage_ne_nil (m r : List Char) : buildErrorPage m r ≠ [] := by
  rw [buildErrorPage_decomp]
  intro h0
  rw [List.append_eq_nil] at h0
  exact absurd h0.1 (by decide)

/-- The two containment facts of an error page: it names the (stripped)
request and the (stripped) message. -/
lemma buildErrorPage_contains (m r : List Char) (hr : pyStrip r = r) :
    (∃ p q, buildErrorPage m r =
      p ++ (if r.isEmpty then defaultRequestText else r) ++ q) ∧
    (∃ p q, buildErrorPage m r =
      p ++ (if (pyStrip m).isEmpty then defaultMessageText else pyStrip m) ++ q) := by
  constructor
  · refine ⟨pageHead, pageMid ++ ((if (pyStrip m).isEmpty then defaultMessageText
      else pyStrip m) ++ pageTail), ?_⟩
    rw [buildErrorPage_decomp, hr]
    simp [List.append_assoc]
  · refine ⟨pageHead ++ ((if r.isEmpty then defaultRequestText else r) ++ pageMid),
      pageTail, ?_⟩
    rw [buildErrorPage_decomp, hr]
    simp [List.append_assoc]

/-- C2 (amended): the error responses the request processor itself builds
— for an empty request line and for a resolution `InvalidInputError` —
are JSON objects with all four keys `status="error"`, `message`,
`domain_server`, `error_page`, where `error_page` is a non-empty HTML
document naming the stripped request (or a placeholder) and the reason.
The UTF-8 decode-failure response, by contrast, carries only `status` and
`message` — see the counterexample. -/
theorem handled_error_responses_have_full_schema
    (ds : List Char) (extra : List ExtraServer) (data : List Nat) (s : List Char)
    (hdec : decodeUtf8? data = some s)
    (herr : lookupKey (serveResponse ds extra data) kStatus = some (.str vError)) :
    ∃ msg page,
      lookupKey (serveResponse ds extra data) kMessage = some (.str msg) ∧
      lookupKey (serveResponse ds extra data) kDomainServer = some (.str ds) ∧
      lookupKey (serveResponse ds extra data) kErrorPage = some (.str page) ∧
      page ≠ [] ∧
      (∃ p q, page = p ++ (if (pyStrip s).isEmpty then defaultRequestText
        else pyStrip s) ++ q) ∧
      (∃ p q, page = p ++ (if (pyStrip msg).isEmpty then defaultMessageText
        else pyStrip msg) ++ q) := by
  have hresp : serveResponse ds extra data = processorHandle ds (mkServers ds extra) s := by
    rw [serveResponse, hdec]
  rw [hresp] at herr ⊢
  simp only [processorHandle] at herr ⊢
  have hcont : ∀ m, _ := fun m => buildErrorPage_contains m (pyStrip s) (pyStrip_idem s)
  by_cases hempty : (pyStrip s).isEmpty
  · rw [if_pos hempty] at herr ⊢
    obtain ⟨h1, h2⟩ := hcont errNoDomain
    exact ⟨errNoDomain, buildErrorPage errNoDomain (pyStrip s),
      lookup_errorPayload_message _ _ _, lookup_errorPayload_domain _ _ _,
      lookup_errorPayload_page _ _ _, buildErrorPage_ne_nil _ _, h1, h2⟩
  · rw [if_neg hempty] at herr ⊢
    by_cases hping : (pyStrip s).map Char.toUpper = pingWord
    · rw [if_pos hping] at herr
      rw [lookup_head] at herr
      exact absurd herr (by decide)
    · rw [if_neg hping] at herr ⊢
      by_cases hsrv : (pyStrip s).map Char.toUpper = serversWord
      · rw [if_pos hsrv] at herr
        rw [lookup_head] at herr
        exact absurd herr (by decide)
      · rw [if_neg hsrv] at herr ⊢
        cases hdesc : describe (pyStrip s) with
        | ok parts =>
          rw [hdesc] at herr
          dsimp only at herr
          rw [lookup_head] at herr
          exact absurd herr (by decide)
        | error e =>
          obtain ⟨h1, h2⟩ := hcont e
          exact ⟨e, buildErrorPage e (pyStrip s),
            lookup_errorPayload_message _ _ _, lookup_errorPayload_domain _ _ _,
            lookup_errorPayload_page _ _ _, buildErrorPage_ne_nil _ _, h1, h2⟩

/-- Witness for `handled_error_responses_have_full_schema`: the request
consisting of one space decodes, strips to empty, and draws the
four-key error response. -/
theorem handled_error_responses_have_full_schema_witness :
    decodeUtf8? [32] = some ((" ").toList) ∧
    lookupKey (serveResponse (("1.1.1.1").toList) [] [32]) kStatus =
      some (.str vError) ∧
    ∃ msg page,
      lookupKey (serveResponse (("1.1.1.1").toList) [] [32]) kMessage = some (.str msg) ∧
      lookupKey (serveResponse (("1.1.1.1").toList) [] [32]) kDomainServer =
        some (.str (("1.1.1.1").toList)) ∧
      lookupKey (serveResponse (("1.1.1.1").toList) [] [32]) kErrorPage =
        some (.str page) ∧
      page ≠ [] ∧
      (∃ p q, page = p ++ (if (pyStrip ((" ").toList)).isEmpty then defaultRequestText
        else pyStrip ((" ").toList)) ++ q) ∧
      (∃ p q, page = p ++ (if (pyStrip msg).isEmpty then defaultMessageText
        else pyStrip msg) ++ q) :=
  ⟨by rfl, by rfl,
   handled_error_responses_have_full_schema (("1.1.1.1").toList) [] [32]
     ((" ").toList) (by rfl) (by rfl)⟩

/-- C8 counterexample: the payload `b"PI\xffNG"` is not valid UTF-8 (so in
particular it does not case-insensitively equal `"PING"` as a text
payload), yet the peer handler decodes it with `errors="ignore"`,
obtains `"PING"`, and answers with the pong object instead of the
claimed sites dump. -/
theorem peer_pong_on_invalid_utf8_payload :
    decodeUtf8? [80, 73, 255, 78, 71] = none ∧
    peerHandle initState [80, 73, 255, 78, 71] =
      [(kStatus, .str vOk), (kMessage, .str vPong)] ∧
    lookupKey (peerHandle initState [80, 73, 255, 78, 71]) kSites = none := by
  exact ⟨rfl, rfl, rfl⟩

end Zweb
